import Mathlib

/-!
Verification of the media-downloader normalization/reduction/caching pipeline

Shallow embedding of the Go sources of `esaiaswestberg/media-downloader`:

* `src/unnamed/part_000` (package `youtube`): `getFormats`, `ytFormatToMedia`,
  `ytFormatHash` (SHA-256 of the raw format identifier);
* `src/unnamed/part_002` (package `ytdlp`): the raw record schema;
* `src/unnamed/part_003` (package `sources`): `Source`, `youtubeHostnames`,
  `contains`, `IdentifySource`;
* `src/internal/media/info/info.go`: the canonical `Format`, `CleanFormats`,
  `SortFormats` (single-schema ranker);
* `src/backend/internal/media/info/info.go`: the split `VideoFormat` /
  `AudioFormat` schema and its `SortFormats`;
* `src/internal/media/youtube/cache.go`: the extraction cache;
* `src/backend/internal/media/ytdlp/service.go`: `getRawMediaInfo`;
* `src/backend/internal/media/youtube/download.go`: `DownloadMedia`.

Modelling conventions: Go `float64` fields that are only compared, copied or
maximised (bitrates, sizes, fps, widths) are modelled as `ℚ`; Go `time.Time` /
`time.Duration` are `ℤ` nanoseconds; Go maps are association lists; the
subprocess and stream boundaries are explicit data.  `sort.Slice` is modelled
twice: a contract-level stable comparison sort (`insertionSortB`) for order
properties, and an exact port of Go's `pdqsort` (`sortSliceGo`, the algorithm
behind `sort.Slice` since Go 1.19) for tie-order questions.
-/

namespace MediaDownloader

set_option maxRecDepth 100000

/-- Provider identifiers: `type Source int` with the constants `YouTube` and
`Unknown` (package `sources`, src/unnamed/part_003). -/
inductive Source where
  | YouTube
  | Unknown
deriving DecidableEq, Repr

/-! ## SHA-256 (Go `crypto/sha256`, as used by `ytFormatHash`)

32-bit words are `Nat` reduced `% 2 ^ 32`; the message is a list of byte
values (`Nat < 256`). -/

def w32 : Nat := 4294967296

def add32 (a b : Nat) : Nat := (a + b) % w32

def rotr32 (n x : Nat) : Nat := ((x >>> n) ||| (x <<< (32 - n))) % w32

def shr32 (n x : Nat) : Nat := x >>> n

def xor3 (a b c : Nat) : Nat := a ^^^ b ^^^ c

/-- SHA-256 round constants (decimal): the first 32 bits of the fractional
parts of the cube roots of the first 64 primes, 0x428a2f98, 0x71374491, ... as
crypto/sha256 lists them. -/
def sha256K : List Nat :=
  [1116352408, 1899447441, 3049323471, 3921009573, 961987163, 1508970993,
   2453635748, 2870763221, 3624381080, 310598401, 607225278, 1426881987,
   1925078388, 2162078206, 2614888103, 3248222580, 3835390401, 4022224774,
   264347078, 604807628, 770255983, 1249150122, 1555081692, 1996064986,
   2554220882, 2821834349, 2952996808, 3210313671, 3336571891, 3584528711,
   113926993, 338241895, 666307205, 773529912, 1294757372, 1396182291,
   1695183700, 1986661051, 2177026350, 2456956037, 2730485921, 2820302411,
   3259730800, 3345764771, 3516065817, 3600352804, 4094571909, 275423344,
   430227734, 506948616, 659060556, 883997877, 958139571, 1322822218,
   1537002063, 1747873779, 1955562222, 2024104815, 2227730452, 2361852424,
   2428436474, 2756734187, 3204031479, 3329325298]

/-- SHA-256 initial hash value (decimal): the first 32 bits of the fractional
parts of the square roots of the first 8 primes, 0x6a09e667 ... 0x5be0cd19. -/
def sha256H0 : List Nat :=
  [1779033703, 3144134277, 1013904242, 2773480762, 1359893119, 2600822924,
   528734635, 1541459225]

/-- Big-endian byte decomposition, most significant first, `n` bytes. -/
def toBytesBE (n v : Nat) : List Nat :=
  (List.range n).reverse.map fun i => (v >>> (8 * i)) % 256

/-- SHA-256 padding: append `0x80`, zero bytes to 56 mod 64, then the bit
length as 8 bytes big-endian. -/
def sha256Pad (msg : List Nat) : List Nat :=
  let L := msg.length
  let k := (119 - (L % 64)) % 64
  msg ++ [0x80] ++ List.replicate k 0 ++ toBytesBE 8 (8 * L)

/-- Split a padded message into 64-byte blocks (fuel-bounded). -/
def chunks64Aux : Nat → List Nat → List (List Nat)
  | 0, _ => []
  | _, [] => []
  | fuel + 1, l => l.take 64 :: chunks64Aux fuel (l.drop 64)

def chunks64 (l : List Nat) : List (List Nat) := chunks64Aux (l.length + 1) l

/-- Assemble a 32-bit word from four big-endian bytes of the block. -/
def wordAt (chunk : List Nat) (i : Nat) : Nat :=
  (chunk.getD (4 * i) 0) <<< 24 ||| (chunk.getD (4 * i + 1) 0) <<< 16 |||
  (chunk.getD (4 * i + 2) 0) <<< 8 ||| chunk.getD (4 * i + 3) 0

def smallSigma0 (x : Nat) : Nat := xor3 (rotr32 7 x) (rotr32 18 x) (shr32 3 x)
def smallSigma1 (x : Nat) : Nat := xor3 (rotr32 17 x) (rotr32 19 x) (shr32 10 x)
def bigSigma0 (x : Nat) : Nat := xor3 (rotr32 2 x) (rotr32 13 x) (rotr32 22 x)
def bigSigma1 (x : Nat) : Nat := xor3 (rotr32 6 x) (rotr32 11 x) (rotr32 25 x)

/-- Message schedule: 64 words extending the 16 block words. -/
def msgSchedule (chunk : List Nat) : List Nat :=
  let w0 := (List.range 16).map (wordAt chunk)
  (List.range 48).foldl
    (fun w _ =>
      let n := w.length
      let next := add32 (add32 (smallSigma1 (w.getD (n - 2) 0)) (w.getD (n - 7) 0))
        (add32 (smallSigma0 (w.getD (n - 15) 0)) (w.getD (n - 16) 0))
      w ++ [next])
    w0

/-- One round of the SHA-256 compression function. -/
def sha256Round (st : List Nat) (kw : Nat × Nat) : List Nat :=
  let a := st.getD 0 0
  let b := st.getD 1 0
  let c := st.getD 2 0
  let d := st.getD 3 0
  let e := st.getD 4 0
  let f := st.getD 5 0
  let g := st.getD 6 0
  let h := st.getD 7 0
  let ch := (e &&& f) ^^^ ((w32 - 1 - e) &&& g)
  let maj := (a &&& b) ^^^ (a &&& c) ^^^ (b &&& c)
  let t1 := add32 (add32 (add32 h (bigSigma1 e)) (add32 ch kw.1)) kw.2
  let t2 := add32 (bigSigma0 a) maj
  [add32 t1 t2, a, b, c, add32 d t1, e, f, g]

/-- Process one 64-byte block. -/
def sha256Block (hs : List Nat) (chunk : List Nat) : List Nat :=
  let ws := msgSchedule chunk
  let st := (sha256K.zip ws).foldl (fun st kw => sha256Round st (kw.2, kw.1)) hs
  (hs.zip st).map fun p => add32 p.1 p.2

/-- SHA-256 digest of a byte list, as 32 bytes. -/
def sha256Bytes (msg : List Nat) : List Nat :=
  let hs := (chunks64 (sha256Pad msg)).foldl sha256Block sha256H0
  hs.flatMap (toBytesBE 4)

def hexChar (n : Nat) : Char :=
  if n < 10 then Char.ofNat (48 + n) else Char.ofNat (87 + n)

/-- Lowercase hex rendering of a byte list, as Go `fmt.Sprintf "%x"` prints a
`[]byte`. -/
def bytesToHex (bs : List Nat) : String :=
  String.mk (bs.flatMap fun b => [hexChar (b / 16), hexChar (b % 16)])

/-- UTF-8 encoding of one character. -/
def utf8EncodeCharBytes (c : Char) : List Nat :=
  let n := c.toNat
  if n < 0x80 then [n]
  else if n < 0x800 then [0xC0 ||| (n >>> 6), 0x80 ||| (n &&& 0x3F)]
  else if n < 0x10000 then
    [0xE0 ||| (n >>> 12), 0x80 ||| ((n >>> 6) &&& 0x3F), 0x80 ||| (n &&& 0x3F)]
  else
    [0xF0 ||| (n >>> 18), 0x80 ||| ((n >>> 12) &&& 0x3F),
     0x80 ||| ((n >>> 6) &&& 0x3F), 0x80 ||| (n &&& 0x3F)]

/-- UTF-8 bytes of a string, as Go `[]byte(s)`. -/
def strBytes (s : String) : List Nat := s.data.flatMap utf8EncodeCharBytes

def sha256Hex (s : String) : String := bytesToHex (sha256Bytes (strBytes s))

/-! ## goutubedl raw formats and the canonical `Format`

`goutubedl.Format` (github.com/wader/goutubedl) is the provider-specific
RawFormat record consumed by `src/unnamed/part_000`.  All its numeric fields
are Go `float64`; they are modelled as `ℚ`. -/

structure GoutubedlFormat where
  FormatID : String
  FormatNote : String
  Ext : String
  Resolution : String
  Width : ℚ
  Height : ℚ
  FPS : ℚ
  VBR : ℚ
  ABR : ℚ
  ASR : ℚ
  VCodec : String
  ACodec : String
  Filesize : ℚ
  FilesizeApprox : ℚ
deriving DecidableEq, Repr

/-- `goutubedl.Info`: title, duration and the ordered raw format list. -/
structure GoInfo where
  Title : String
  Duration : ℚ
  Formats : List GoutubedlFormat
deriving DecidableEq, Repr

/-- Truncation toward zero, as Go `int(x)` on a `float64`. -/
def truncInt (q : ℚ) : ℤ := if q ≥ 0 then ⌊q⌋ else ⌈q⌉

/-- Canonical `info.Format` (src/internal/media/info/info.go, single schema).
`Size` keeps the value of Go `uint64(math.Max(Filesize, FilesizeApprox))`,
truncation included (the conversion is defined for the non-negative sizes the
provider reports). -/
structure Format where
  HasVideo : Bool
  VideoCodec : String
  VideoBitrate : ℚ
  VideoWidth : ℤ
  VideoHeight : ℤ
  VideoFPS : ℚ
  HasAudio : Bool
  AudioCodec : String
  AudioBitrate : ℚ
  AudioSampleRate : ℚ
  Extension : String
  Size : ℤ
  Source : Source
  SourceIdentifier : String
deriving DecidableEq, Repr

instance : Inhabited Format :=
  ⟨⟨false, "", 0, 0, 0, 0, false, "", 0, 0, "", 0, Source.Unknown, ""⟩⟩

/-- `ytFormatHash` (src/unnamed/part_000 lines 166-170): SHA-256 of the raw
`FormatID`, hex encoded. -/
def ytFormatHash (f : GoutubedlFormat) : String := sha256Hex f.FormatID

/-- `ytFormatToMedia` (src/unnamed/part_000 lines 144-164).  Note: the source
sets `HasAudio` unconditionally to `true`, and `HasVideo` to the `isVideo`
argument (derived from the `Resolution` string), not from the codecs. -/
def ytFormatToMedia (f : GoutubedlFormat) (isVideo : Bool) : Format where
  HasVideo := isVideo
  VideoCodec := f.VCodec
  VideoBitrate := f.VBR
  VideoWidth := truncInt f.Width
  VideoHeight := truncInt f.Height
  VideoFPS := f.FPS
  HasAudio := true
  AudioCodec := f.ACodec
  AudioBitrate := f.ABR
  AudioSampleRate := f.ASR
  Extension := f.Ext
  Size := truncInt (max f.Filesize f.FilesizeApprox)
  Source := Source.YouTube
  SourceIdentifier := ytFormatHash f

/-- First loop of `getFormats`: a raw format survives the pre-filter unless it
is a storyboard or both size fields are zero. -/
def keepRaw (f : GoutubedlFormat) : Bool :=
  !(f.FormatNote == "storyboard") && !(f.Filesize == 0 && f.FilesizeApprox == 0)

/-- The surviving raw formats are split, in order, into the video slice and
the audio slice on `Resolution == "audio only"`. -/
def splitRaw (l : List GoutubedlFormat) : List GoutubedlFormat × List GoutubedlFormat :=
  let kept := l.filter keepRaw
  (kept.filter fun f => !(f.Resolution == "audio only"),
   kept.filter fun f => f.Resolution == "audio only")

/-- Inner comparison loop of the video pass: entry `i` is skipped when some
other mp4 entry with the same width, height and fps has a strictly higher
video bitrate. -/
def videoSkip (vs : List GoutubedlFormat) (i : Nat) (f : GoutubedlFormat) : Bool :=
  vs.enum.any fun p =>
    !(p.1 == i) && p.2.Ext == "mp4" && p.2.Width == f.Width && p.2.Height == f.Height &&
      p.2.FPS == f.FPS && decide (p.2.VBR > f.VBR)

/-- Video pass of `getFormats` (src/unnamed/part_000 lines 72-113): non-mp4
entries are skipped outright; mp4 entries survive unless strictly dominated. -/
def videoPass (vs : List GoutubedlFormat) : List Format :=
  (vs.enum.filter fun p => p.2.Ext == "mp4" && !videoSkip vs p.1 p.2).map
    fun p => ytFormatToMedia p.2 true

/-- Inner comparison loop of the audio pass: entry `i` is skipped when some
other entry with the same extension has a strictly higher audio bitrate. -/
def audioSkip (as : List GoutubedlFormat) (i : Nat) (f : GoutubedlFormat) : Bool :=
  as.enum.any fun p =>
    !(p.1 == i) && f.Ext == p.2.Ext && decide (p.2.ABR > f.ABR)

/-- Audio pass of `getFormats` (src/unnamed/part_000 lines 115-139). -/
def audioPass (as : List GoutubedlFormat) : List Format :=
  (as.enum.filter fun p => !audioSkip as p.1 p.2).map fun p => ytFormatToMedia p.2 false

/-- `getFormats` (src/unnamed/part_000 lines 44-142). -/
def getFormats (l : List GoutubedlFormat) : List Format :=
  videoPass (splitRaw l).1 ++ audioPass (splitRaw l).2

/-- `info.Media` (single schema) and `GetMedia` (src/unnamed/part_000
lines 32-42). -/
structure Media where
  Url : String
  Title : String
  Duration : ℚ
  Formats : List Format
deriving DecidableEq, Repr

def GetMedia (info : GoInfo) (url : String) : Media :=
  ⟨url, info.Title, info.Duration, getFormats info.Formats⟩

/-- `CleanFormats` (src/internal/media/info/info.go lines 36-51): drop entries
with neither capability flag, and entries with both bitrates ≤ 0. -/
def CleanFormats (l : List Format) : List Format :=
  l.filter fun format =>
    if !format.HasVideo && !format.HasAudio then false
    else if decide (format.VideoBitrate ≤ 0) && decide (format.AudioBitrate ≤ 0) then false
    else true

/-- The comparator closure passed to `sort.Slice` by the single-schema
`SortFormats` (src/internal/media/info/info.go lines 53-77).
`formatLess a b` is Go `less(a, b)`. -/
def formatLess (a b : Format) : Bool :=
  if a.HasVideo && !b.HasVideo then false
  else if !a.HasVideo && b.HasVideo then true
  else if a.HasVideo && b.HasVideo then decide (a.VideoBitrate > b.VideoBitrate)
  else if a.HasAudio && b.HasAudio then decide (a.AudioBitrate > b.AudioBitrate)
  else false

/-- Stable insertion of `a` into `l`: `a` passes every element it is strictly
`less` than.  Contract-level model of a comparison sort. -/
def insertB (less : α → α → Bool) (a : α) : List α → List α
  | [] => [a]
  | b :: l => if less a b then a :: b :: l else b :: insertB less a l

/-- Contract-level model of `sort.Slice`: a stable comparison sort producing a
permutation of the input ordered by the comparator.  (This is exactly the
algorithm Go runs for slices of at most 12 elements; `sortSliceGo` below is
the exact model for all lengths.) -/
def insertionSortB (less : α → α → Bool) : List α → List α
  | [] => []
  | a :: l => insertB less a (insertionSortB less l)

/-- Single-schema `SortFormats`, contract-level model. -/
def SortFormats (l : List Format) : List Format := insertionSortB formatLess l

/-! ## Backend split schema (src/backend/internal/media/info/info.go) -/

/-- Shared part of the split schema (`info.Format`, backend). -/
structure BFormat where
  Extension : String
  Size : ℤ
  Source : Source
  SourceIdentifier : String
deriving DecidableEq, Repr

structure VideoFormat where
  VideoCodec : String
  VideoBitrate : ℚ
  VideoWidth : ℤ
  VideoHeight : ℤ
  VideoFPS : ℚ
  toBFormat : BFormat
deriving DecidableEq, Repr

structure AudioFormat where
  AudioCodec : String
  AudioBitrate : ℚ
  AudioSampleRate : ℚ
  toBFormat : BFormat
deriving DecidableEq, Repr

/-- Comparator of the backend video sort (lines 67-81): resolution
(width×height) descending, then video bitrate descending, then size
descending. -/
def videoFormatLess (a b : VideoFormat) : Bool :=
  let iRes := a.VideoWidth * a.VideoHeight
  let jRes := b.VideoWidth * b.VideoHeight
  if iRes ≠ jRes then decide (iRes > jRes)
  else if a.VideoBitrate ≠ b.VideoBitrate then decide (a.VideoBitrate > b.VideoBitrate)
  else decide (a.toBFormat.Size > b.toBFormat.Size)

/-- Comparator of the backend audio sort (lines 84-92): audio bitrate
descending, then size descending. -/
def audioFormatLess (a b : AudioFormat) : Bool :=
  if a.AudioBitrate ≠ b.AudioBitrate then decide (a.AudioBitrate > b.AudioBitrate)
  else decide (a.toBFormat.Size > b.toBFormat.Size)

/-- Backend `SortFormats`, video slice (contract-level model). -/
def SortVideoFormats (l : List VideoFormat) : List VideoFormat :=
  insertionSortB videoFormatLess l

/-- Backend `SortFormats`, audio slice (contract-level model). -/
def SortAudioFormats (l : List AudioFormat) : List AudioFormat :=
  insertionSortB audioFormatLess l

/-! ## Extraction cache (src/internal/media/youtube/cache.go)

`time.Time` instants and `time.Duration` are `ℤ` nanoseconds;
`time.Since(t)` at instant `now` is `now - t`.  The Go map is an association
list.  The background sweep goroutine spawned by `startCleaning` is
concurrency and is not part of the state transition modelled here; `Get`'s
`hasClean := true` write is kept. -/

structure CacheEntry (α : Type) where
  result : α
  timestamp : ℤ
deriving DecidableEq, Repr

structure ResultCache (α : Type) where
  cache : List (String × CacheEntry α)
  maxAge : ℤ
  hasClean : Bool
deriving DecidableEq, Repr

/-- Go map read `c.cache[url]`. -/
def mapLookup (m : List (String × CacheEntry α)) (k : String) : Option (CacheEntry α) :=
  (m.find? fun p => p.1 == k).map (·.2)

/-- Go map `delete(c.cache, url)`. -/
def mapErase (m : List (String × CacheEntry α)) (k : String) : List (String × CacheEntry α) :=
  m.filter fun p => !(p.1 == k)

/-- Go map assignment `c.cache[url] = e`. -/
def mapInsert (m : List (String × CacheEntry α)) (k : String) (e : CacheEntry α) :
    List (String × CacheEntry α) :=
  (k, e) :: mapErase m k

/-- The package-level cache singleton: empty map, `maxAge` 30 minutes
(in nanoseconds), `hasClean` false. -/
def cacheSingleton (α : Type) : ResultCache α :=
  ⟨[], 30 * 60 * 1000000000, false⟩

/-- `(*resultCache).Get` (cache.go lines 28-52) at instant `now`: returns the
entry unless it is missing or `time.Since(timestamp) > maxAge` (note: strict),
deleting it in the expired case.  The lazy sweep start is reflected only in
the `hasClean` flag. -/
def ResultCache.Get (c : ResultCache α) (url : String) (now : ℤ) :
    Option α × ResultCache α :=
  let c := { c with hasClean := true }
  match mapLookup c.cache url with
  | none => (none, c)
  | some entry =>
    if now - entry.timestamp > c.maxAge then
      (none, { c with cache := mapErase c.cache url })
    else
      (some entry.result, c)

/-- `(*resultCache).Set` (cache.go lines 54-62) at instant `now`. -/
def ResultCache.Set (c : ResultCache α) (url : String) (result : α) (now : ℤ) :
    ResultCache α :=
  { c with cache := mapInsert c.cache url ⟨result, now⟩ }

/-! ## Extraction invoker (src/backend/internal/media/ytdlp/service.go)

`getRawMediaInfo` after a successful `run` (run.go lines 9-23: pipes opened
and `cmd.Start` succeeded): the captured reads, the `cmd.Wait` outcome and
the JSON decoding are the inputs.  Byte strings are `List Nat`. -/

/-- ytdlp raw record schema (src/unnamed/part_002), restricted to the fields
the service reads: `Width`, `Height`, `Filesize` and `FilesizeApprox` are Go
`int64`, the bitrates, fps and sample rate `float64`. -/
structure YtdlpFormat where
  FormatID : String
  FormatNote : String
  Ext : String
  Acodec : String
  Vcodec : String
  Width : ℤ
  Height : ℤ
  Fps : ℚ
  Vbr : ℚ
  Abr : ℚ
  Asr : ℚ
  Filesize : ℤ
  FilesizeApprox : ℤ
deriving DecidableEq, Repr

/-- `MediaInfo` (src/unnamed/part_002), restricted to the fields the service
reads (`ID` and `OriginalURL` are carried but never consumed). -/
structure MediaInfo where
  Title : String
  Duration : ℚ
  Formats : List YtdlpFormat
deriving DecidableEq, Repr

/-- Observable outcome of the started subprocess: the two full captures
(`io.ReadAll` on each pipe, which may itself fail) and the `cmd.Wait` error. -/
structure StartedRun where
  stdoutRead : Except String (List Nat)
  stderrRead : Except String (List Nat)
  waitErr : Option String
deriving Repr

inductive YtdlpError where
  | readStdoutFailed
  | readStderrFailed
  | toolWaitFailed
  | toolStderrOutput
  | parseFailed
deriving DecidableEq, Repr

/-- `getRawMediaInfo` (service.go lines 28-69) after the subprocess started:
read stdout, read stderr, wait, fail on any stderr output, then decode.
`decodeJson` stands for `json.Unmarshal` into `MediaInfo`. -/
def getRawMediaInfo (decodeJson : List Nat → Option MediaInfo) (r : StartedRun) :
    Except YtdlpError MediaInfo :=
  match r.stdoutRead with
  | .error _ => .error .readStdoutFailed
  | .ok stdoutBytes =>
    match r.stderrRead with
    | .error _ => .error .readStderrFailed
    | .ok stderrBytes =>
      match r.waitErr with
      | some _ => .error .toolWaitFailed
      | none =>
        if stderrBytes.length > 0 then .error .toolStderrOutput
        else
          match decodeJson stdoutBytes with
          | none => .error .parseFailed
          | some mediaInfo => .ok mediaInfo

/-! ## Source classifier -/

/-- A parsed URL, reduced to the one component the classifier reads. -/
structure ParsedUrl where
  hostname : String
deriving DecidableEq, Repr

/-- Lowercasing, character by character, as Go `strings.ToLower` acts on the
ASCII strings involved here. -/
def strToLower (s : String) : String := String.mk (s.data.map Char.toLower)

/-- The fixed YouTube hostname table (src/unnamed/part_003:
`const youtubeHostnames`), a semicolon-separated string. -/
def youtubeHostnames : String :=
  "youtube.com;youtu.be;www.youtube.com;www.youtu.be;youtube-nocookie.com;www.youtube-nocookie.com"

/-- Go `strings.Split(s, ";")`: the substrings between semicolons, empty
pieces included. -/
def splitSemiAux : List Char → List Char → List String
  | [], cur => [String.mk cur.reverse]
  | c :: rest, cur =>
    if c = ';' then String.mk cur.reverse :: splitSemiAux rest []
    else splitSemiAux rest (c :: cur)

def splitSemi (s : String) : List String := splitSemiAux s.data []

/-- `contains` (src/unnamed/part_003): split the lowercased haystack on ";"
and compare each piece to the needle for exact equality. -/
def containsGo (haystack needle : String) : Bool :=
  (splitSemi (strToLower haystack)).contains needle

/-- The YouTube allow-list as the pieces of the table — what `contains`
effectively tests membership of. -/
def youtubeHostnameList : List String := splitSemi (strToLower youtubeHostnames)

/-- `IdentifySource` (src/unnamed/part_003): parse the URL (a parse error
yields `Unknown`), lowercase the hostname, return YouTube when the hostname
is on the YouTube table, else `Unknown`.  `URL.Parse` plus `Hostname()`
(net/url) is the stdlib boundary, supplied as `parseUrl`: `none` stands for a
parse error, `some u` for a parsed URL whose `Hostname()` is `u.hostname`. -/
def IdentifySource (parseUrl : String → Option ParsedUrl) (url : String) : Source :=
  match parseUrl url with
  | none => Source.Unknown
  | some urlObj =>
    let hostname := strToLower urlObj.hostname
    if containsGo youtubeHostnames hostname then Source.YouTube
    else Source.Unknown

/-! ## DownloadMedia (src/backend/internal/media/youtube/download.go) -/

inductive DownloadErr where
  | formatNotFound
  | generalFormatNotFound
deriving DecidableEq, Repr

/-- Successful resolution: the media summary, the resolved canonical format,
and the raw `FormatID` handed to `result.Download` — reaching it is what
"opening the byte stream" means; every error is returned before that point. -/
structure Resolved where
  media : Media
  format : Format
  streamedFormatID : String
deriving DecidableEq, Repr

/-- `DownloadMedia` (download.go lines 25-64), given the cached (or freshly
fetched) extraction result `info`: locate the raw format whose `ytFormatHash`
equals the requested identifier, rebuild the media, locate the canonical
format carrying the identifier, then open the stream. -/
def DownloadMedia (info : GoInfo) (url sourceIdentifier : String) :
    Except DownloadErr Resolved :=
  match info.Formats.find? fun f => ytFormatHash f == sourceIdentifier with
  | none => .error .formatNotFound
  | some rawFormat =>
    let media := GetMedia info url
    match media.Formats.find? fun f => f.SourceIdentifier == sourceIdentifier with
    | none => .error .generalFormatNotFound
    | some generalFormat => .ok ⟨media, generalFormat, rawFormat.FormatID⟩

/-- Format list served by the list endpoint (`qualityHandler`,
src/internal/www/service.go lines 18-53: `FetchMedia` then `CleanFormats`
then `SortFormats`). -/
def listedFormats (info : GoInfo) : List Format :=
  SortFormats (CleanFormats (getFormats info.Formats))

/-! ## Exact model of Go `sort.Slice`: pdqsort (Go ≥ 1.19, `sort/zsortfunc.go`)

The slice is a `List α` read through `nth` and mutated only through `lswap`;
`data.Less(i, j)` is `less (nth l i) (nth l j)`.  Loops carry explicit fuel;
every fuel value at a call site strictly dominates the number of iterations
the Go loop can make, so the models agree with the Go code on all inputs. -/

/-- Indexed read of the slice. -/
def nth [Inhabited α] (l : List α) (i : Nat) : α := l.getD i default

/-- `data.Swap(i, j)`; out-of-range indices (which Go never produces) leave
the list unchanged, keeping the operation a permutation unconditionally. -/
def lswap (l : List α) (i j : Nat) : List α :=
  match l.get? i, l.get? j with
  | some x, some y => (l.set i y).set j x
  | _, _ => l

/-- Inner loop of `insertionSort_func`: shift element `j` left while
`j > a && Less(j, j-1)`. -/
def insertionInner [Inhabited α] (less : α → α → Bool) (a : Nat) :
    List α → Nat → List α
  | l, 0 => l
  | l, j + 1 =>
    if a < j + 1 && less (nth l (j + 1)) (nth l j) then
      insertionInner less a (lswap l (j + 1) j) j
    else l

/-- Outer loop of `insertionSort_func`: `i` from `a+1` up to `b`, with fuel
`b - i` iterations remaining. -/
def insertionOuter [Inhabited α] (less : α → α → Bool) (a : Nat) :
    List α → Nat → Nat → List α
  | l, _, 0 => l
  | l, i, n + 1 => insertionOuter less a (insertionInner less a l i) (i + 1) n

/-- `insertionSort_func(data, a, b)`. -/
def insertionSortGo [Inhabited α] (less : α → α → Bool) (l : List α) (a b : Nat) :
    List α :=
  insertionOuter less a l (a + 1) (b - (a + 1))

/-- `siftDown_func(data, lo, hi, first)`; the root index strictly increases,
so `hi` iterations of fuel suffice. -/
def siftDownGo [Inhabited α] (less : α → α → Bool) (hi first : Nat) :
    List α → Nat → Nat → List α
  | l, _, 0 => l
  | l, root, fuel + 1 =>
    let child := 2 * root + 1
    if child ≥ hi then l
    else
      let child :=
        if child + 1 < hi && less (nth l (first + child)) (nth l (first + child + 1)) then
          child + 1
        else child
      if !less (nth l (first + root)) (nth l (first + child)) then l
      else siftDownGo less hi first (lswap l (first + root) (first + child)) child fuel

/-- Heap construction loop of `heapSort_func`: `i` from `(hi-1)/2` down to 0;
the argument is `i + 1` pending iterations. -/
def heapBuild [Inhabited α] (less : α → α → Bool) (hi first : Nat) :
    List α → Nat → List α
  | l, 0 => l
  | l, i + 1 => heapBuild less hi first (siftDownGo less hi first l i (hi + 1)) i

/-- Extraction loop of `heapSort_func`: `i` from `hi-1` down to 0. -/
def heapExtract [Inhabited α] (less : α → α → Bool) (first : Nat) :
    List α → Nat → List α
  | l, 0 => l
  | l, i + 1 =>
    heapExtract less first (siftDownGo less i first (lswap l first (first + i)) 0 (i + 1)) i

/-- `heapSort_func(data, a, b)` (only reached with `b - a > 12`). -/
def heapSortGo [Inhabited α] (less : α → α → Bool) (l : List α) (a b : Nat) : List α :=
  let hi := b - a
  heapExtract less a (heapBuild less hi a l ((hi - 1) / 2 + 1)) hi

/-- `for i <= j && data.Less(i, a) { i++ }` with `j` fixed: returns the new
`i`. -/
def scanI [Inhabited α] (less : α → α → Bool) (l : List α) (a j : Nat) :
    Nat → Nat → Nat
  | i, 0 => i
  | i, fuel + 1 =>
    if i ≤ j && less (nth l i) (nth l a) then scanI less l a j (i + 1) fuel else i

/-- `for i <= j && !data.Less(j, a) { j-- }` with `i` fixed: returns the new
`j`. -/
def scanJ [Inhabited α] (less : α → α → Bool) (l : List α) (a i : Nat) :
    Nat → Nat → Nat
  | j, 0 => j
  | j, fuel + 1 =>
    if i ≤ j && !less (nth l j) (nth l a) then scanJ less l a i (j - 1) fuel else j

/-- Main loop of `partition_func`: scan, test `i > j`, swap, advance. -/
def partitionLoop [Inhabited α] (less : α → α → Bool) (a b : Nat) :
    List α → Nat → Nat → Nat → List α × Nat
  | l, _, j, 0 => (l, j)
  | l, i, j, fuel + 1 =>
    let i := scanI less l a j i b
    let j := scanJ less l a i j b
    if i > j then (l, j)
    else partitionLoop less a b (lswap l i j) (i + 1) (j - 1) fuel

/-- `partition_func(data, a, b, pivot)`: returns the mutated slice, the new
pivot position and `alreadyPartitioned`. -/
def partitionGo [Inhabited α] (less : α → α → Bool) (l : List α) (a b pivot : Nat) :
    List α × Nat × Bool :=
  let l := lswap l a pivot
  let i := a + 1
  let j := b - 1
  let i := scanI less l a j i b
  let j := scanJ less l a i j b
  if i > j then (lswap l j a, j, true)
  else
    let l := lswap l i j
    let r := partitionLoop less a b l (i + 1) (j - 1) b
    (lswap r.1 r.2 a, r.2, false)

/-- `for i <= j && !data.Less(a, i) { i++ }` of `partitionEqual_func`. -/
def scanEqI [Inhabited α] (less : α → α → Bool) (l : List α) (a j : Nat) :
    Nat → Nat → Nat
  | i, 0 => i
  | i, fuel + 1 =>
    if i ≤ j && !less (nth l a) (nth l i) then scanEqI less l a j (i + 1) fuel else i

/-- `for i <= j && data.Less(a, j) { j-- }` of `partitionEqual_func`. -/
def scanEqJ [Inhabited α] (less : α → α → Bool) (l : List α) (a i : Nat) :
    Nat → Nat → Nat
  | j, 0 => j
  | j, fuel + 1 =>
    if i ≤ j && less (nth l a) (nth l j) then scanEqJ less l a i (j - 1) fuel else j

/-- Main loop of `partitionEqual_func`. -/
def partitionEqualLoop [Inhabited α] (less : α → α → Bool) (a b : Nat) :
    List α → Nat → Nat → Nat → List α × Nat
  | l, i, _, 0 => (l, i)
  | l, i, j, fuel + 1 =>
    let i := scanEqI less l a j i b
    let j := scanEqJ less l a i j b
    if i > j then (l, i)
    else partitionEqualLoop less a b (lswap l i j) (i + 1) (j - 1) fuel

/-- `partitionEqual_func(data, a, b, pivot)`: returns the mutated slice and
the first index of the strictly-greater suffix. -/
def partitionEqualGo [Inhabited α] (less : α → α → Bool) (l : List α) (a b pivot : Nat) :
    List α × Nat :=
  let l := lswap l a pivot
  partitionEqualLoop less a b l (a + 1) (b - 1) b

/-- `for i < b && !data.Less(i, i-1) { i++ }` of `partialInsertionSort_func`. -/
def advanceSorted [Inhabited α] (less : α → α → Bool) (l : List α) (b : Nat) :
    Nat → Nat → Nat
  | i, 0 => i
  | i, fuel + 1 =>
    if i < b && !less (nth l i) (nth l (i - 1)) then advanceSorted less l b (i + 1) fuel
    else i

/-- Left shift loop of `partialInsertionSort_func`: `for j := i-1; j >= 1; j--`
with early break (the Go loop bound really is the absolute index 1). -/
def shiftLeft [Inhabited α] (less : α → α → Bool) : List α → Nat → List α
  | l, 0 => l
  | l, j + 1 =>
    if less (nth l (j + 1)) (nth l j) then shiftLeft less (lswap l (j + 1) j) j
    else l

/-- Right shift loop of `partialInsertionSort_func`: `for j := i+1; j < b; j++`
with early break; fuel is `b - j`. -/
def shiftRight [Inhabited α] (less : α → α → Bool) : List α → Nat → Nat → List α
  | l, _, 0 => l
  | l, j, fuel + 1 =>
    if less (nth l j) (nth l (j - 1)) then shiftRight less (lswap l j (j - 1)) (j + 1) fuel
    else l

/-- One step (one of the `maxSteps` attempts) plus recursion of
`partialInsertionSort_func`; returns the mutated slice and whether the range
ended sorted. -/
def partialInsertionSortSteps [Inhabited α] (less : α → α → Bool) (a b : Nat) :
    List α → Nat → Nat → List α × Bool
  | l, _, 0 => (l, false)
  | l, i, steps + 1 =>
    let i := advanceSorted less l b i b
    if i = b then (l, true)
    else if b - a < 50 then (l, false)
    else
      let l := lswap l i (i - 1)
      let l := if i - a ≥ 2 then shiftLeft less l (i - 1) else l
      let l := if b - i ≥ 2 then shiftRight less l (i + 1) (b - (i + 1)) else l
      partialInsertionSortSteps less a b l i steps

/-- `partialInsertionSort_func(data, a, b)` (`maxSteps = 5`). -/
def partialInsertionSortGo [Inhabited α] (less : α → α → Bool) (l : List α) (a b : Nat) :
    List α × Bool :=
  partialInsertionSortSteps less a b l (a + 1) 5

/-- `bits.Len` on an unsigned value. -/
def bitsLen (n : Nat) : Nat := if n = 0 then 0 else Nat.log2 n + 1

/-- The xorshift step of `sort`'s pattern breaker, on 64-bit words. -/
def xorshiftNext (r : Nat) : Nat :=
  let m := 18446744073709551616
  let r := (r ^^^ (r <<< 13)) % m
  let r := r ^^^ (r >>> 17)
  (r ^^^ (r <<< 5)) % m

/-- `nextPowerOfTwo(length)`. -/
def nextPowerOfTwo (length : Nat) : Nat := 1 <<< bitsLen length

/-- `breakPatterns_func(data, a, b)`. -/
def breakPatternsGo (l : List α) (a b : Nat) : List α :=
  let length := b - a
  if length ≥ 8 then
    let modulus := nextPowerOfTwo length
    let idx := a + (length / 4) * 2 - 1
    let r1 := xorshiftNext length
    let o1 := let o := r1 &&& (modulus - 1); if o ≥ length then o - length else o
    let l := lswap l (idx - 1) (a + o1)
    let r2 := xorshiftNext r1
    let o2 := let o := r2 &&& (modulus - 1); if o ≥ length then o - length else o
    let l := lswap l idx (a + o2)
    let r3 := xorshiftNext r2
    let o3 := let o := r3 &&& (modulus - 1); if o ≥ length then o - length else o
    lswap l (idx + 1) (a + o3)
  else l

inductive SortedHint where
  | unknown
  | increasing
  | decreasing
deriving DecidableEq, Repr

/-- `order2_func`: orders two indices by the data, counting a swap. -/
def order2Go [Inhabited α] (less : α → α → Bool) (l : List α) (a b swaps : Nat) :
    (Nat × Nat) × Nat :=
  if less (nth l b) (nth l a) then ((b, a), swaps + 1) else ((a, b), swaps)

/-- `median_func`: index of the median of three, counting swaps. -/
def medianGo [Inhabited α] (less : α → α → Bool) (l : List α) (a b c swaps : Nat) :
    Nat × Nat :=
  let p1 := order2Go less l a b swaps
  let p2 := order2Go less l p1.1.2 c p1.2
  let p3 := order2Go less l p1.1.1 p2.1.1 p2.2
  (p3.1.2, p3.2)

/-- `medianAdjacent_func`: median of `a-1`, `a`, `a+1`. -/
def medianAdjacentGo [Inhabited α] (less : α → α → Bool) (l : List α) (a swaps : Nat) :
    Nat × Nat :=
  medianGo less l (a - 1) a (a + 1) swaps

/-- `choosePivot_func(data, a, b)`: pivot index and sortedness hint
(`shortestNinther = 50`, `maxSwaps = 12`). -/
def choosePivotGo [Inhabited α] (less : α → α → Bool) (l : List α) (a b : Nat) :
    Nat × SortedHint :=
  let len := b - a
  let i := a + len / 4 * 1
  let j := a + len / 4 * 2
  let k := a + len / 4 * 3
  if len ≥ 8 then
    let t :=
      if len ≥ 50 then
        let p1 := medianAdjacentGo less l i 0
        let p2 := medianAdjacentGo less l j p1.2
        let p3 := medianAdjacentGo less l k p2.2
        ((p1.1, p2.1, p3.1), p3.2)
      else ((i, j, k), 0)
    let pm := medianGo less l t.1.1 t.1.2.1 t.1.2.2 t.2
    if pm.2 = 0 then (pm.1, .increasing)
    else if pm.2 = 12 then (pm.1, .decreasing)
    else (pm.1, .unknown)
  else (j, .increasing)

/-- `reverseRange_func(data, a, b)`. -/
def reverseRangeAux : List α → Nat → Nat → Nat → List α
  | l, _, _, 0 => l
  | l, i, j, fuel + 1 =>
    if i < j then reverseRangeAux (lswap l i j) (i + 1) (j - 1) fuel else l

def reverseRangeGo (l : List α) (a b : Nat) : List α := reverseRangeAux l a (b - 1) b

/-- Pattern-breaking prelude of one `pdqsort_func` iteration: when the last
partitioning was imbalanced, scramble and decrement the limit. -/
def pdqPrelude (l : List α) (a b limit : Nat) (wasBalanced : Bool) : List α × Nat :=
  if !wasBalanced then (breakPatternsGo l a b, limit - 1) else (l, limit)

/-- Pivot choice plus the reversal applied on a `decreasingHint`. -/
def pdqPivotStep [Inhabited α] (less : α → α → Bool) (l : List α) (a b : Nat) :
    List α × Nat × SortedHint :=
  let ph := choosePivotGo less l a b
  if ph.2 = .decreasing then
    (reverseRangeGo l a b, (b - 1) - (ph.1 - a), .increasing)
  else (l, ph.1, ph.2)

/-- The likely-sorted check: run `partialInsertionSort_func` only when both
flags are set and the hint is increasing. -/
def pdqMaybePIS [Inhabited α] (less : α → α → Bool) (l : List α) (a b : Nat)
    (doIt : Bool) : List α × Bool :=
  if doIt then partialInsertionSortGo less l a b else (l, false)

/-- `pdqsort_func(data, a, b, limit)` (`maxInsertion = 12`).  The Go body is a
loop whose `continue` re-enters with updated `a`/`b` and flags; both the loop
re-entry and the recursive call on the shorter range appear here as recursive
calls on the fuel, which strictly exceeds any possible iteration count at the
top-level call site.  A fresh Go invocation starts with both flags true. -/
def pdqsortGo [Inhabited α] (less : α → α → Bool) :
    Nat → List α → Nat → Nat → Nat → Bool → Bool → List α
  | 0, l, _, _, _, _, _ => l
  | fuel + 1, l, a, b, limit, wasBalanced, wasPartitioned =>
    if b - a ≤ 12 then insertionSortGo less l a b
    else if limit = 0 then heapSortGo less l a b
    else
      let lm := pdqPrelude l a b limit wasBalanced
      let lph := pdqPivotStep less lm.1 a b
      let pivot := lph.2.1
      let lDone := pdqMaybePIS less lph.1 a b
        (wasBalanced && wasPartitioned && lph.2.2 = .increasing)
      if lDone.2 then lDone.1
      else if a > 0 && !less (nth lDone.1 (a - 1)) (nth lDone.1 pivot) then
        let pe := partitionEqualGo less lDone.1 a b pivot
        pdqsortGo less fuel pe.1 pe.2 b lm.2 wasBalanced wasPartitioned
      else
        let pr := partitionGo less lDone.1 a b pivot
        let mid := pr.2.1
        let newBalanced := decide (min (mid - a) (b - mid) ≥ (b - a) / 8)
        if mid - a < b - mid then
          pdqsortGo less fuel (pdqsortGo less fuel pr.1 a mid lm.2 true true)
            (mid + 1) b lm.2 newBalanced pr.2.2
        else
          pdqsortGo less fuel (pdqsortGo less fuel pr.1 (mid + 1) b lm.2 true true)
            a mid lm.2 newBalanced pr.2.2

/-- `sort.Slice(x, less)`: `limit := bits.Len(uint(length))`, then pdqsort of
the whole slice.  The fuel `2 * length + 64` strictly dominates the number of
loop re-entries plus recursion depth of the Go algorithm. -/
def sortSliceGo [Inhabited α] (less : α → α → Bool) (l : List α) : List α :=
  pdqsortGo less (2 * l.length + 64) l 0 l.length (bitsLen l.length) true true

/-- Single-schema `SortFormats`, exact Go model. -/
def SortFormatsGo (l : List Format) : List Format := sortSliceGo formatLess l

/-! ## Derived notions and concrete instances used by the claims -/

/-- `g` competes with `f` in the video-dedup pass: mp4 container and the same
(width, height, fps) triple. -/
def sameVideoClass (f g : GoutubedlFormat) : Bool :=
  g.Ext == "mp4" && g.Width == f.Width && g.Height == f.Height && g.FPS == f.FPS

/-- The video bitrates of the (mp4, width, height, fps) class of `f` inside
the video slice `vs`. -/
def videoClassBitrates (vs : List GoutubedlFormat) (f : GoutubedlFormat) : List ℚ :=
  (vs.filter (sameVideoClass f)).map (·.VBR)

/-- A non-mp4, video-capable raw format that passes the pre-filter. -/
def webmVideoRaw : GoutubedlFormat :=
  ⟨"248", "1080p", "webm", "1920x1080", 1920, 1080, 30, 2500, 0, 0, "vp9", "none", 1000000, 0⟩

/-- Two mp4 raw formats in the same (width, height, fps) class with equal
video bitrates. -/
def mp4TiedA : GoutubedlFormat :=
  ⟨"137", "1080p", "mp4", "1920x1080", 1920, 1080, 30, 4000, 0, 0, "avc1", "none", 800000, 0⟩

def mp4TiedB : GoutubedlFormat :=
  ⟨"298", "1080p", "mp4", "1920x1080", 1920, 1080, 30, 4000, 0, 0, "avc1", "none", 900000, 0⟩

/-- Two mp4 raw formats in the same class with distinct bitrates (the spec's
own 4000/6000 scenario). -/
def mp4Low : GoutubedlFormat :=
  ⟨"135", "1080p", "mp4", "1920x1080", 1920, 1080, 30, 4000, 0, 0, "avc1", "none", 800000, 0⟩

def mp4High : GoutubedlFormat :=
  ⟨"136", "1080p", "mp4", "1920x1080", 1920, 1080, 30, 6000, 0, 0, "avc1", "none", 900000, 0⟩

/-- A video-only raw format: its audio codec is the sentinel "none". -/
def videoOnlyRaw : GoutubedlFormat :=
  ⟨"160", "", "mp4", "640x360", 640, 360, 30, 700, 0, 0, "avc1.4d401e", "none", 5000, 0⟩

/-- Canonical formats for the ranker claims: a small-resolution high-bitrate
video, a large-resolution low-bitrate video, and an audio-only format. -/
def fmtVideoSmall : Format :=
  ⟨true, "avc1", 9, 100, 100, 30, true, "mp4a", 0, 44100, "mp4", 1000, Source.YouTube, "v1"⟩

def fmtVideoLarge : Format :=
  ⟨true, "avc1", 5, 1920, 1080, 30, true, "mp4a", 0, 44100, "mp4", 2000, Source.YouTube, "v2"⟩

def fmtAudioOnly : Format :=
  ⟨false, "", 0, 0, 0, 0, true, "opus", 7, 48000, "webm", 500, Source.YouTube, "a1"⟩

/-- Audio bitrates of the 13-element stability example. -/
def c9abr : List ℚ := [60, 30, 70, 10, 20, 20, 60, 10, 40, 10, 20, 70, 70]

/-- Thirteen audio-only formats whose identifiers record their input
positions; positions 11 and 12 carry equal bitrates. -/
def c9Input : List Format :=
  c9abr.enum.map fun p =>
    ⟨false, "", 0, 0, 0, 0, true, "opus", p.2, 48000, "webm", 100, Source.YouTube,
      "f" ++ toString p.1⟩

/-- The cache singleton after storing value 42 under "url" at instant 0. -/
def c5After : ResultCache Nat := (cacheSingleton Nat).Set "url" 42 0

/-- Raw formats sharing no field except (for the first pair) the identifier. -/
def c6FormatA : GoutubedlFormat :=
  ⟨"137", "note-a", "mp4", "1920x1080", 1920, 1080, 30, 4000, 0, 0, "avc1", "none", 111, 0⟩

def c6FormatA2 : GoutubedlFormat :=
  ⟨"137", "other", "webm", "audio only", 0, 0, 0, 0, 128, 48000, "none", "opus", 999, 1⟩

def c6FormatB : GoutubedlFormat :=
  ⟨"18", "note-b", "webm", "640x360", 640, 360, 24, 700, 96, 44100, "vp9", "opus", 222, 5⟩

/-- A sample stand-in for net/url parsing: it accepts exactly one URL,
yielding its hostname, and reports a parse error on anything else. -/
def sampleParse : String → Option ParsedUrl := fun s =>
  if s = "https://WWW.YouTube.com/watch?v=x" then some ⟨"WWW.YouTube.com"⟩ else none

/-- A started ytdlp run that succeeded: one stdout byte string, empty stderr,
clean exit. -/
def sampleRunOk : StartedRun := ⟨.ok [123], .ok [], none⟩

/-- A decoder accepting exactly the sample stdout. -/
def sampleDecode : List Nat → Option MediaInfo := fun bs =>
  if bs = [123] then some ⟨"T", 10, []⟩ else none

/-- An mp4 raw format with non-zero size but zero bitrates: it survives
`getFormats` but `CleanFormats` removes it from the list output. -/
def zeroBitrateMp4 : GoutubedlFormat :=
  ⟨"22", "", "mp4", "1280x720", 1280, 720, 30, 0, 0, 0, "avc1", "mp4a", 100, 0⟩

def c10Info : GoInfo := ⟨"title", 12, [zeroBitrateMp4]⟩

/-- A webm video raw format: dropped by the video pass of `getFormats`. -/
def webmDropped : GoutubedlFormat :=
  ⟨"247", "", "webm", "1280x720", 1280, 720, 30, 1200, 0, 0, "vp9", "none", 777, 0⟩

def c10WitnessInfo : GoInfo := ⟨"title", 12, [webmDropped]⟩

/-! ## Permutation infrastructure for the swap-based sort model -/

theorem cons_set_perm (y x : α) :
    ∀ (t : List α) (k : Nat), t.get? k = some y → (y :: t.set k x).Perm (x :: t)
  | [], k, h => by simp at h
  | a :: t, 0, h => by
    simp only [List.get?_cons_zero, Option.some.injEq] at h
    subst h
    simpa using List.Perm.swap x a t
  | a :: t, k + 1, h => by
    simp only [List.get?_cons_succ] at h
    have h1 : y :: (a :: t).set (k + 1) x = y :: a :: t.set k x := by simp
    rw [h1]
    have p2 : (y :: a :: t.set k x).Perm (a :: y :: t.set k x) := List.Perm.swap a y _
    have p3 : (a :: y :: t.set k x).Perm (a :: x :: t) := (cons_set_perm y x t k h).cons a
    have p4 : (a :: x :: t).Perm (x :: a :: t) := List.Perm.swap x a t
    exact (p2.trans p3).trans p4

theorem lswap_perm (l : List α) (i j : Nat) : (lswap l i j).Perm l := by
  unfold lswap
  cases hi : l.get? i with
  | none => exact List.Perm.refl l
  | some x =>
    cases hj : l.get? j with
    | none => exact List.Perm.refl l
    | some y =>
      have hj2 : (l.set i y).get? j = some y := by
        by_cases h : i = j
        · subst h
          rw [List.get?_set_eq, hj]
          rfl
        · rw [List.get?_set_ne _ _ h]
          exact hj
      have p1 : (y :: (l.set i y).set j x).Perm (x :: l.set i y) :=
        cons_set_perm y x (l.set i y) j hj2
      have p2 : (x :: l.set i y).Perm (y :: l) := cons_set_perm x y l i hi
      exact (p1.trans p2).cons_inv

theorem insertionInner_perm [Inhabited α] (less : α → α → Bool) (a : Nat) :
    ∀ (j : Nat) (l : List α), (insertionInner less a l j).Perm l
  | 0, l => List.Perm.refl l
  | j + 1, l => by
    unfold insertionInner
    split
    · exact (insertionInner_perm less a j _).trans (lswap_perm l (j + 1) j)
    · exact List.Perm.refl l

theorem insertionOuter_perm [Inhabited α] (less : α → α → Bool) (a : Nat) :
    ∀ (n : Nat) (l : List α) (i : Nat), (insertionOuter less a l i n).Perm l
  | 0, l, _ => List.Perm.refl l
  | n + 1, l, i =>
    (insertionOuter_perm less a n _ (i + 1)).trans (insertionInner_perm less a i l)

theorem insertionSortGo_perm [Inhabited α] (less : α → α → Bool) (l : List α) (a b : Nat) :
    (insertionSortGo less l a b).Perm l :=
  insertionOuter_perm less a _ l (a + 1)

theorem siftDownGo_perm [Inhabited α] (less : α → α → Bool) (hi first : Nat) :
    ∀ (fuel : Nat) (l : List α) (root : Nat), (siftDownGo less hi first l root fuel).Perm l
  | 0, l, _ => List.Perm.refl l
  | fuel + 1, l, root => by
    unfold siftDownGo
    dsimp only
    split
    · exact List.Perm.refl l
    · split <;> split
      · exact List.Perm.refl l
      · exact (siftDownGo_perm less hi first fuel _ _).trans (lswap_perm l _ _)
      · exact List.Perm.refl l
      · exact (siftDownGo_perm less hi first fuel _ _).trans (lswap_perm l _ _)

theorem heapBuild_perm [Inhabited α] (less : α → α → Bool) (hi first : Nat) :
    ∀ (n : Nat) (l : List α), (heapBuild less hi first l n).Perm l
  | 0, l => List.Perm.refl l
  | n + 1, l =>
    (heapBuild_perm less hi first n _).trans (siftDownGo_perm less hi first (hi + 1) l n)

theorem heapExtract_perm [Inhabited α] (less : α → α → Bool) (first : Nat) :
    ∀ (n : Nat) (l : List α), (heapExtract less first l n).Perm l
  | 0, l => List.Perm.refl l
  | n + 1, l =>
    (heapExtract_perm less first n _).trans
      ((siftDownGo_perm less n first (n + 1) _ 0).trans (lswap_perm l first (first + n)))

theorem heapSortGo_perm [Inhabited α] (less : α → α → Bool) (l : List α) (a b : Nat) :
    (heapSortGo less l a b).Perm l :=
  (heapExtract_perm less a _ _).trans (heapBuild_perm less (b - a) a _ l)

theorem partitionLoop_perm [Inhabited α] (less : α → α → Bool) (a b : Nat) :
    ∀ (fuel : Nat) (l : List α) (i j : Nat), (partitionLoop less a b l i j fuel).1.Perm l
  | 0, l, _, _ => List.Perm.refl l
  | fuel + 1, l, i, j => by
    unfold partitionLoop
    dsimp only
    split
    · exact List.Perm.refl l
    · exact (partitionLoop_perm less a b fuel _ _ _).trans (lswap_perm l _ _)

theorem partitionGo_perm [Inhabited α] (less : α → α → Bool) (l : List α) (a b pivot : Nat) :
    (partitionGo less l a b pivot).1.Perm l := by
  unfold partitionGo
  dsimp only
  split
  · exact (lswap_perm _ _ _).trans (lswap_perm l a pivot)
  · exact (lswap_perm _ _ _).trans
      (((partitionLoop_perm less a b b _ _ _).trans (lswap_perm _ _ _)).trans
        (lswap_perm l a pivot))

theorem partitionEqualLoop_perm [Inhabited α] (less : α → α → Bool) (a b : Nat) :
    ∀ (fuel : Nat) (l : List α) (i j : Nat), (partitionEqualLoop less a b l i j fuel).1.Perm l
  | 0, l, _, _ => List.Perm.refl l
  | fuel + 1, l, i, j => by
    unfold partitionEqualLoop
    dsimp only
    split
    · exact List.Perm.refl l
    · exact (partitionEqualLoop_perm less a b fuel _ _ _).trans (lswap_perm l _ _)

theorem partitionEqualGo_perm [Inhabited α] (less : α → α → Bool) (l : List α)
    (a b pivot : Nat) : (partitionEqualGo less l a b pivot).1.Perm l :=
  (partitionEqualLoop_perm less a b b _ _ _).trans (lswap_perm l a pivot)

theorem shiftLeft_perm [Inhabited α] (less : α → α → Bool) :
    ∀ (j : Nat) (l : List α), (shiftLeft less l j).Perm l
  | 0, l => List.Perm.refl l
  | j + 1, l => by
    unfold shiftLeft
    split
    · exact (shiftLeft_perm less j _).trans (lswap_perm l (j + 1) j)
    · exact List.Perm.refl l

theorem shiftRight_perm [Inhabited α] (less : α → α → Bool) :
    ∀ (fuel : Nat) (l : List α) (j : Nat), (shiftRight less l j fuel).Perm l
  | 0, l, _ => List.Perm.refl l
  | fuel + 1, l, j => by
    unfold shiftRight
    split
    · exact (shiftRight_perm less fuel _ _).trans (lswap_perm l j (j - 1))
    · exact List.Perm.refl l

theorem partialInsertionSortSteps_perm [Inhabited α] (less : α → α → Bool) (a b : Nat) :
    ∀ (steps : Nat) (l : List α) (i : Nat),
      (partialInsertionSortSteps less a b l i steps).1.Perm l
  | 0, l, _ => List.Perm.refl l
  | steps + 1, l, i => by
    unfold partialInsertionSortSteps
    dsimp only
    split
    · exact List.Perm.refl l
    · split
      · exact List.Perm.refl l
      · refine (partialInsertionSortSteps_perm less a b steps _ _).trans ?_
        have hbase := lswap_perm l (advanceSorted less l b i b) (advanceSorted less l b i b - 1)
        set l1 := lswap l (advanceSorted less l b i b) (advanceSorted less l b i b - 1) with hl1
        have h2 : (if advanceSorted less l b i b - a ≥ 2 then
            shiftLeft less l1 (advanceSorted less l b i b - 1) else l1).Perm l1 := by
          split
          · exact shiftLeft_perm less _ l1
          · exact List.Perm.refl l1
        set l2 := (if advanceSorted less l b i b - a ≥ 2 then
            shiftLeft less l1 (advanceSorted less l b i b - 1) else l1) with hl2
        have h3 : (if b - advanceSorted less l b i b ≥ 2 then
            shiftRight less l2 (advanceSorted less l b i b + 1)
              (b - (advanceSorted less l b i b + 1)) else l2).Perm l2 := by
          split
          · exact shiftRight_perm less _ l2 _
          · exact List.Perm.refl l2
        exact (h3.trans h2).trans hbase

theorem partialInsertionSortGo_perm [Inhabited α] (less : α → α → Bool) (l : List α)
    (a b : Nat) : (partialInsertionSortGo less l a b).1.Perm l :=
  partialInsertionSortSteps_perm less a b 5 l (a + 1)

theorem breakPatternsGo_perm (l : List α) (a b : Nat) :
    (breakPatternsGo l a b).Perm l := by
  unfold breakPatternsGo
  dsimp only
  split
  · exact ((lswap_perm _ _ _).trans (lswap_perm _ _ _)).trans (lswap_perm l _ _)
  · exact List.Perm.refl l

theorem reverseRangeAux_perm :
    ∀ (fuel : Nat) (l : List α) (i j : Nat), (reverseRangeAux l i j fuel).Perm l
  | 0, l, _, _ => List.Perm.refl l
  | fuel + 1, l, i, j => by
    unfold reverseRangeAux
    split
    · exact (reverseRangeAux_perm fuel _ _ _).trans (lswap_perm l i j)
    · exact List.Perm.refl l

theorem reverseRangeGo_perm (l : List α) (a b : Nat) : (reverseRangeGo l a b).Perm l :=
  reverseRangeAux_perm b l a (b - 1)

theorem pdqPrelude_perm (l : List α) (a b limit : Nat) (wasB : Bool) :
    (pdqPrelude l a b limit wasB).1.Perm l := by
  unfold pdqPrelude
  split
  · exact breakPatternsGo_perm l a b
  · exact List.Perm.refl l

theorem pdqPivotStep_perm [Inhabited α] (less : α → α → Bool) (l : List α) (a b : Nat) :
    (pdqPivotStep less l a b).1.Perm l := by
  unfold pdqPivotStep
  dsimp only
  split
  · exact reverseRangeGo_perm l a b
  · exact List.Perm.refl l

theorem pdqMaybePIS_perm [Inhabited α] (less : α → α → Bool) (l : List α) (a b : Nat)
    (doIt : Bool) : (pdqMaybePIS less l a b doIt).1.Perm l := by
  unfold pdqMaybePIS
  split
  · exact partialInsertionSortGo_perm less l a b
  · exact List.Perm.refl l

theorem pdqsortGo_perm [Inhabited α] (less : α → α → Bool) :
    ∀ (fuel : Nat) (l : List α) (a b limit : Nat) (wasB wasP : Bool),
      (pdqsortGo less fuel l a b limit wasB wasP).Perm l
  | 0, l, _, _, _, _, _ => List.Perm.refl l
  | fuel + 1, l, a, b, limit, wasB, wasP => by
    unfold pdqsortGo
    dsimp only
    have hbase : (pdqMaybePIS less (pdqPivotStep less (pdqPrelude l a b limit wasB).1 a b).1
        a b (wasB && wasP && decide ((pdqPivotStep less (pdqPrelude l a b limit wasB).1
          a b).2.2 = SortedHint.increasing))).1.Perm l :=
      (pdqMaybePIS_perm less _ a b _).trans
        ((pdqPivotStep_perm less _ a b).trans (pdqPrelude_perm l a b limit wasB))
    split
    · exact insertionSortGo_perm less l a b
    · split
      · exact heapSortGo_perm less l a b
      · split
        · exact hbase
        · split
          · exact (pdqsortGo_perm less fuel _ _ _ _ _ _).trans
              ((partitionEqualGo_perm less _ a b _).trans hbase)
          · split
            · exact (pdqsortGo_perm less fuel _ _ _ _ _ _).trans
                ((pdqsortGo_perm less fuel _ _ _ _ _ _).trans
                  ((partitionGo_perm less _ a b _).trans hbase))
            · exact (pdqsortGo_perm less fuel _ _ _ _ _ _).trans
                ((pdqsortGo_perm less fuel _ _ _ _ _ _).trans
                  ((partitionGo_perm less _ a b _).trans hbase))

theorem sortSliceGo_perm [Inhabited α] (less : α → α → Bool) (l : List α) :
    (sortSliceGo less l).Perm l :=
  pdqsortGo_perm less _ l 0 l.length (bitsLen l.length) true true

/-! ## Order properties of the contract-level sort -/

theorem insertB_perm (less : α → α → Bool) (a : α) :
    ∀ (l : List α), (insertB less a l).Perm (a :: l)
  | [] => List.Perm.refl [a]
  | b :: l => by
    unfold insertB
    split
    · exact List.Perm.refl _
    · exact ((insertB_perm less a l).cons b).trans (List.Perm.swap a b l)

theorem insertionSortB_perm (less : α → α → Bool) :
    ∀ (l : List α), (insertionSortB less l).Perm l
  | [] => List.Perm.refl []
  | a :: l =>
    (insertB_perm less a (insertionSortB less l)).trans
      ((insertionSortB_perm less l).cons a)

/-- Sortedness of stable insertion, restricted to elements satisfying `P`:
the comparator only needs to be transitive and asymmetric on `P`. -/
theorem insertB_pairwise (less : α → α → Bool) (P : α → Prop)
    (htrans : ∀ x y z, P x → P y → P z →
      less x y = true → less y z = true → less x z = true)
    (hasym : ∀ x y, P x → P y → less x y = true → less y x = false) :
    ∀ (l : List α) (a : α), P a → (∀ x ∈ l, P x) →
      l.Pairwise (fun x y => less y x = false) →
      (insertB less a l).Pairwise (fun x y => less y x = false)
  | [], a, _, _, _ => by simp [insertB]
  | b :: l, a, hPa, hPl, hpw => by
    have hPb : P b := hPl b (List.mem_cons_self b l)
    have hPl2 : ∀ x ∈ l, P x := fun x hx => hPl x (List.mem_cons_of_mem b hx)
    rw [List.pairwise_cons] at hpw
    unfold insertB
    split
    · rename_i hab
      rw [List.pairwise_cons]
      refine ⟨?_, List.pairwise_cons.mpr hpw⟩
      intro y hy
      rcases List.mem_cons.mp hy with hyb | hyl
      · subst hyb
        exact hasym a y hPa hPb hab
      · by_contra hcon
        have hya : less y a = true := Bool.of_not_eq_false hcon
        have hyb2 : less y b = true := htrans y a b (hPl2 y hyl) hPa hPb hya hab
        rw [hpw.1 y hyl] at hyb2
        exact Bool.false_ne_true hyb2
    · rename_i hab
      rw [List.pairwise_cons]
      constructor
      · intro y hy
        have hy2 := (insertB_perm less a l).mem_iff.mp hy
        rcases List.mem_cons.mp hy2 with hya | hyl
        · subst hya
          exact Bool.of_not_eq_true hab
        · exact hpw.1 y hyl
      · exact insertB_pairwise less P htrans hasym l a hPa hPl2 hpw.2

theorem insertionSortB_pairwise (less : α → α → Bool) (P : α → Prop)
    (htrans : ∀ x y z, P x → P y → P z →
      less x y = true → less y z = true → less x z = true)
    (hasym : ∀ x y, P x → P y → less x y = true → less y x = false) :
    ∀ (l : List α), (∀ x ∈ l, P x) →
      (insertionSortB less l).Pairwise (fun x y => less y x = false)
  | [], _ => by simp [insertionSortB]
  | a :: l, hP => by
    unfold insertionSortB
    refine insertB_pairwise less P htrans hasym _ a
      (hP a (List.mem_cons_self a l)) ?_ ?_
    · intro x hx
      exact hP x (List.mem_cons_of_mem a ((insertionSortB_perm less l).mem_iff.mp hx))
    · exact insertionSortB_pairwise less P htrans hasym l
        fun x hx => hP x (List.mem_cons_of_mem a hx)

/-- On formats with at least one capability flag (the invariant `CleanFormats`
guarantees), the ranking comparator is transitive. -/
theorem formatLess_trans (x y z : Format)
    (hx : x.HasVideo = true ∨ x.HasAudio = true)
    (hy : y.HasVideo = true ∨ y.HasAudio = true)
    (hz : z.HasVideo = true ∨ z.HasAudio = true) :
    formatLess x y = true → formatLess y z = true → formatLess x z = true := by
  unfold formatLess
  rcases hxv : x.HasVideo <;> rcases hyv : y.HasVideo <;> rcases hzv : z.HasVideo <;>
    simp_all <;> intro h1 h2 <;> exact lt_trans h2 h1

/-- On formats with at least one capability flag, the ranking comparator is
asymmetric. -/
theorem formatLess_asymm (x y : Format)
    (hx : x.HasVideo = true ∨ x.HasAudio = true)
    (hy : y.HasVideo = true ∨ y.HasAudio = true) :
    formatLess x y = true → formatLess y x = false := by
  unfold formatLess
  rcases hxv : x.HasVideo <;> rcases hyv : y.HasVideo <;> simp_all <;> intro h1 <;> linarith

/-- The backend video comparator is the strict lexicographic order on
(resolution, video bitrate, size), all descending. -/
theorem videoFormatLess_true_iff (x y : VideoFormat) :
    videoFormatLess x y = true ↔
      (y.VideoWidth * y.VideoHeight < x.VideoWidth * x.VideoHeight ∨
       (x.VideoWidth * x.VideoHeight = y.VideoWidth * y.VideoHeight ∧
        (y.VideoBitrate < x.VideoBitrate ∨
         (x.VideoBitrate = y.VideoBitrate ∧ y.toBFormat.Size < x.toBFormat.Size)))) := by
  unfold videoFormatLess
  dsimp only
  split
  · rename_i hne
    simp only [decide_eq_true_eq]
    constructor
    · exact fun h => Or.inl h
    · rintro (h | ⟨heq, _⟩)
      · exact h
      · exact absurd heq hne
  · rename_i heq
    rw [not_not] at heq
    split
    · rename_i hbne
      simp only [decide_eq_true_eq]
      constructor
      · exact fun h => Or.inr ⟨heq, Or.inl h⟩
      · rintro (h | ⟨-, h | ⟨hbeq, -⟩⟩)
        · exact absurd heq (ne_of_gt h)
        · exact h
        · exact absurd hbeq hbne
    · rename_i hbeq
      rw [not_not] at hbeq
      simp only [decide_eq_true_eq]
      constructor
      · exact fun h => Or.inr ⟨heq, Or.inr ⟨hbeq, h⟩⟩
      · rintro (h | ⟨-, h | ⟨-, h⟩⟩)
        · exact absurd heq (ne_of_gt h)
        · exact absurd hbeq (ne_of_gt h)
        · exact h

theorem videoFormatLess_trans (x y z : VideoFormat) :
    videoFormatLess x y = true → videoFormatLess y z = true →
      videoFormatLess x z = true := by
  rw [videoFormatLess_true_iff, videoFormatLess_true_iff, videoFormatLess_true_iff]
  rintro (h1 | ⟨e1, h1 | ⟨f1, s1⟩⟩) (h2 | ⟨e2, h2 | ⟨f2, s2⟩⟩)
  · exact Or.inl (lt_trans h2 h1)
  · exact Or.inl (e2 ▸ h1)
  · exact Or.inl (e2 ▸ h1)
  · exact Or.inl (e1 ▸ h2)
  · exact Or.inr ⟨e1.trans e2, Or.inl (lt_trans h2 h1)⟩
  · exact Or.inr ⟨e1.trans e2, Or.inl (f2 ▸ h1)⟩
  · exact Or.inl (e1 ▸ h2)
  · exact Or.inr ⟨e1.trans e2, Or.inl (f1 ▸ h2)⟩
  · exact Or.inr ⟨e1.trans e2, Or.inr ⟨f1.trans f2, lt_trans s2 s1⟩⟩

theorem videoFormatLess_asymm (x y : VideoFormat) :
    videoFormatLess x y = true → videoFormatLess y x = false := by
  intro h
  by_contra hcon
  have h2 := videoFormatLess_true_iff y x |>.mp (Bool.of_not_eq_false hcon)
  have h1 := videoFormatLess_true_iff x y |>.mp h
  rcases h1 with h1 | ⟨e1, h1 | ⟨f1, s1⟩⟩ <;> rcases h2 with h2 | ⟨e2, h2 | ⟨f2, s2⟩⟩ <;>
    first
      | exact absurd (lt_trans h1 h2) (lt_irrefl _)
      | exact absurd h1 (by rw [e2]; exact lt_irrefl _)
      | exact absurd h2 (by rw [e1]; exact lt_irrefl _)
      | exact absurd (lt_trans s1 s2) (lt_irrefl _)
      | exact absurd h1 (by rw [f2]; exact lt_irrefl _)
      | exact absurd h2 (by rw [f1]; exact lt_irrefl _)

/-- The backend audio comparator is the strict lexicographic order on
(audio bitrate, size), descending. -/
theorem audioFormatLess_true_iff (x y : AudioFormat) :
    audioFormatLess x y = true ↔
      (y.AudioBitrate < x.AudioBitrate ∨
       (x.AudioBitrate = y.AudioBitrate ∧ y.toBFormat.Size < x.toBFormat.Size)) := by
  unfold audioFormatLess
  split
  · rename_i hne
    simp only [decide_eq_true_eq]
    constructor
    · exact fun h => Or.inl h
    · rintro (h | ⟨heq, -⟩)
      · exact h
      · exact absurd heq hne
  · rename_i heq
    rw [not_not] at heq
    simp only [decide_eq_true_eq]
    constructor
    · exact fun h => Or.inr ⟨heq, h⟩
    · rintro (h | ⟨-, h⟩)
      · exact absurd heq (ne_of_gt h)
      · exact h

theorem audioFormatLess_trans (x y z : AudioFormat) :
    audioFormatLess x y = true → audioFormatLess y z = true →
      audioFormatLess x z = true := by
  rw [audioFormatLess_true_iff, audioFormatLess_true_iff, audioFormatLess_true_iff]
  rintro (h1 | ⟨e1, s1⟩) (h2 | ⟨e2, s2⟩)
  · exact Or.inl (lt_trans h2 h1)
  · exact Or.inl (e2 ▸ h1)
  · exact Or.inl (e1 ▸ h2)
  · exact Or.inr ⟨e1.trans e2, lt_trans s2 s1⟩

theorem audioFormatLess_asymm (x y : AudioFormat) :
    audioFormatLess x y = true → audioFormatLess y x = false := by
  intro h
  by_contra hcon
  have h2 := audioFormatLess_true_iff y x |>.mp (Bool.of_not_eq_false hcon)
  have h1 := audioFormatLess_true_iff x y |>.mp h
  rcases h1 with h1 | ⟨e1, s1⟩ <;> rcases h2 with h2 | ⟨e2, s2⟩ <;>
    first
      | exact absurd (lt_trans h1 h2) (lt_irrefl _)
      | exact absurd h1 (by rw [e2]; exact lt_irrefl _)
      | exact absurd h2 (by rw [e1]; exact lt_irrefl _)
      | exact absurd (lt_trans s1 s2) (lt_irrefl _)

/-! ## Claim C1 -/

/-- C1, counterexample: `webmVideoRaw` is a video-capable raw format (its
resolution is not "audio only"), survives the pre-filter (not a storyboard,
non-zero size), is not in the preferred mp4 container, and has a (trivially)
unique (width, height, fps) combination — yet `getFormats` drops it: the
video-dedup pass keeps no non-mp4 format, contradicting the claim that such
formats are always kept. -/
theorem C1_counterexample :
    webmVideoRaw.FormatNote ≠ "storyboard" ∧
    ¬(webmVideoRaw.Filesize = 0 ∧ webmVideoRaw.FilesizeApprox = 0) ∧
    webmVideoRaw.Resolution ≠ "audio only" ∧
    webmVideoRaw.Ext ≠ "mp4" ∧
    getFormats [webmVideoRaw] = [] := by
  refine ⟨by decide, by decide, by decide, by decide, by rfl⟩

/-- C1, amended: the video-dedup pass keeps only mp4 video formats (every
video-capable entry of the output is in the mp4 container), and it keeps every
mp4 video format whose (width, height, fps) combination is unique among the
video-capable formats. -/
theorem C1_amended (l : List GoutubedlFormat) :
    (∀ F ∈ getFormats l, F.HasVideo = true → F.Extension = "mp4") ∧
    (∀ i f, (i, f) ∈ (splitRaw l).1.enum → f.Ext = "mp4" →
      (∀ p ∈ (splitRaw l).1.enum, p.1 ≠ i → sameVideoClass f p.2 = false) →
      ytFormatToMedia f true ∈ getFormats l) := by
  constructor
  · intro F hF hV
    rcases List.mem_append.mp hF with hv | ha
    · rcases List.mem_map.mp hv with ⟨p, hp, hfp⟩
      have hpred := (List.mem_filter.mp hp).2
      rw [Bool.and_eq_true] at hpred
      have hmp4 : p.2.Ext = "mp4" := by simpa using hpred.1
      rw [← hfp]
      simpa [ytFormatToMedia] using hmp4
    · rcases List.mem_map.mp ha with ⟨p, _, hfp⟩
      rw [← hfp] at hV
      simp [ytFormatToMedia] at hV
  · intro i f hmem hmp4 huniq
    have hkeep : (f.Ext == "mp4" && !videoSkip (splitRaw l).1 i f) = true := by
      have hskip : videoSkip (splitRaw l).1 i f = false := by
        rw [videoSkip, List.any_eq_false]
        intro p hp
        simp only [Bool.and_eq_true, Bool.not_eq_true', beq_eq_false_iff_ne, ne_eq,
          beq_iff_eq, decide_eq_true_eq, not_and]
        intro hconj hvbr
        obtain ⟨⟨⟨⟨hne, hext⟩, hw⟩, hh⟩, hfps⟩ := hconj
        have := huniq p hp hne
        rw [sameVideoClass] at this
        simp [hext, hw, hh, hfps] at this
      simp [hmp4, hskip]
    refine List.mem_append.mpr (Or.inl ?_)
    exact List.mem_map.mpr ⟨(i, f), List.mem_filter.mpr ⟨hmem, hkeep⟩, rfl⟩

/-- C1, witness for the amended theorem at a concrete input: with one webm and
one mp4 video format, every video entry of the output is mp4, and the mp4
entry (whose class is a singleton) is kept. -/
theorem C1_amended_witness :
    ytFormatToMedia mp4High true ∈ getFormats [webmVideoRaw, mp4High] ∧
    (∀ F ∈ getFormats [webmVideoRaw, mp4High], F.HasVideo = true → F.Extension = "mp4") :=
  ⟨(C1_amended [webmVideoRaw, mp4High]).2 1 mp4High (by decide) (by decide)
    (by decide),
   (C1_amended [webmVideoRaw, mp4High]).1⟩

/-! ## Claim C2 -/

/-- C2, counterexample: two mp4 formats in the same (width, height, fps) class
tie on the maximal video bitrate, and the video-dedup pass keeps BOTH — the
output has two entries of the class, not "at most one", and the tie is not
resolved in favour of the first-seen entry alone. -/
theorem C2_counterexample :
    mp4TiedA.Ext = "mp4" ∧ mp4TiedB.Ext = "mp4" ∧
    mp4TiedA.Width = mp4TiedB.Width ∧ mp4TiedA.Height = mp4TiedB.Height ∧
    mp4TiedA.FPS = mp4TiedB.FPS ∧ mp4TiedA.VBR = mp4TiedB.VBR ∧
    getFormats [mp4TiedA, mp4TiedB] =
      [ytFormatToMedia mp4TiedA true, ytFormatToMedia mp4TiedB true] := by
  refine ⟨rfl, rfl, rfl, rfl, rfl, rfl, by rfl⟩

/-- C2, amended: among the mp4 video formats, every entry the dedup pass keeps
has the maximum video bitrate of its (width, height, fps) class; conversely
every mp4 entry attaining its class maximum is kept (so several entries tying
on the maximum are all kept); and kept entries appear in input order. -/
theorem C2_amended (l : List GoutubedlFormat) :
    (∀ i f, (i, f) ∈ (splitRaw l).1.enum →
      (f.Ext == "mp4" && !videoSkip (splitRaw l).1 i f) = true →
      (videoClassBitrates (splitRaw l).1 f).maximum = (f.VBR : WithBot ℚ)) ∧
    (∀ i f, (i, f) ∈ (splitRaw l).1.enum → f.Ext = "mp4" →
      (∀ g ∈ (splitRaw l).1, sameVideoClass f g = true → g.VBR ≤ f.VBR) →
      ytFormatToMedia f true ∈ videoPass (splitRaw l).1) ∧
    (videoPass (splitRaw l).1).Sublist ((splitRaw l).1.map (ytFormatToMedia · true)) := by
  refine ⟨?_, ?_, ?_⟩
  · intro i f hmem hkeep
    have hget : (splitRaw l).1[i]? = some f := List.mk_mem_enum_iff_getElem?.mp hmem
    obtain ⟨hlt, hgeti⟩ := List.getElem?_eq_some.mp hget
    rw [Bool.and_eq_true] at hkeep
    have hmp4 : f.Ext = "mp4" := by simpa using hkeep.1
    have hskip : videoSkip (splitRaw l).1 i f = false := by simpa using hkeep.2
    rw [List.maximum_eq_coe_iff]
    constructor
    · refine List.mem_map.mpr ⟨f, List.mem_filter.mpr ⟨?_, ?_⟩, rfl⟩
      · exact hgeti ▸ List.getElem_mem hlt
      · simp [sameVideoClass, hmp4]
    · intro b hb
      rcases List.mem_map.mp hb with ⟨g, hgf, hgb⟩
      obtain ⟨hgmem, hgclass⟩ := List.mem_filter.mp hgf
      obtain ⟨j, hjlt, hgetj⟩ := List.mem_iff_getElem.mp hgmem
      rw [videoSkip, List.any_eq_false] at hskip
      have hjmem : (j, g) ∈ (splitRaw l).1.enum :=
        List.mk_mem_enum_iff_getElem?.mpr (List.getElem?_eq_some.mpr ⟨hjlt, hgetj⟩)
      by_cases hij : j = i
      · subst hij
        have hgeq : g = f := by rw [← hgeti, hgetj]
        subst hgeq
        exact hgb ▸ le_refl _
      · have hni := hskip (j, g) hjmem
        rw [sameVideoClass] at hgclass
        simp only [Bool.and_eq_true, beq_iff_eq] at hgclass
        rw [← hgb]
        by_contra hcon
        push_neg at hcon
        apply hni
        simp [hij, hgclass.1.1.1, hgclass.1.1.2, hgclass.1.2, hgclass.2, hcon]
  · intro i f hmem hmp4 hmax
    have hkeep : (f.Ext == "mp4" && !videoSkip (splitRaw l).1 i f) = true := by
      have hskip : videoSkip (splitRaw l).1 i f = false := by
        rw [videoSkip, List.any_eq_false]
        intro p hp
        simp only [Bool.and_eq_true, Bool.not_eq_true', beq_eq_false_iff_ne, ne_eq,
          beq_iff_eq, decide_eq_true_eq, not_and]
        intro hconj
        obtain ⟨⟨⟨⟨hne, hext⟩, hw⟩, hh⟩, hfps⟩ := hconj
        have hgmem : p.2 ∈ (splitRaw l).1 := by
          have hget2 : (splitRaw l).1[p.1]? = some p.2 :=
            List.mk_mem_enum_iff_getElem?.mp (by simpa using hp)
          obtain ⟨hlt2, hg2⟩ := List.getElem?_eq_some.mp hget2
          exact hg2 ▸ List.getElem_mem hlt2
        have hle := hmax p.2 hgmem (by simp [sameVideoClass, hext, hw, hh, hfps])
        intro hvbr
        exact absurd hvbr (not_lt.mpr hle)
      simp [hmp4, hskip]
    exact List.mem_map.mpr ⟨(i, f), List.mem_filter.mpr ⟨hmem, hkeep⟩, rfl⟩
  · have h1 : ((splitRaw l).1.enum.filter fun p =>
        p.2.Ext == "mp4" && !videoSkip (splitRaw l).1 p.1 p.2).Sublist
          (splitRaw l).1.enum := List.filter_sublist _
    have h2 := h1.map fun p => ytFormatToMedia p.2 true
    have h3 : ((splitRaw l).1.enum.map fun p => ytFormatToMedia p.2 true) =
        (splitRaw l).1.map (ytFormatToMedia · true) := by
      rw [show ((fun p : Nat × GoutubedlFormat => ytFormatToMedia p.2 true)) =
        ((ytFormatToMedia · true) ∘ Prod.snd) from rfl, ← List.map_map,
        List.enum_map_snd]
    rw [h3] at h2
    exact h2

/-- C2, witness for the amended theorem at the spec's 4000/6000 scenario:
the kept 6000-bitrate entry attains its class maximum and is kept. -/
theorem C2_amended_witness :
    (videoClassBitrates (splitRaw [mp4Low, mp4High]).1 mp4High).maximum =
      ((6000 : ℚ) : WithBot ℚ) ∧
    ytFormatToMedia mp4High true ∈ videoPass (splitRaw [mp4Low, mp4High]).1 :=
  ⟨(C2_amended [mp4Low, mp4High]).1 1 mp4High (by decide) (by decide),
   (C2_amended [mp4Low, mp4High]).2.1 1 mp4High (by decide) (by decide)
     (by decide)⟩

/-! ## Claim C3 -/

/-- C3: the normalizer does NOT derive the capability flags from the codecs:
`hasAudio` is unconditionally `true` (even when the raw audio codec is the
sentinel "none", as in `videoOnlyRaw`), and `hasVideo` is the caller's
`isVideo` argument, which `getFormats` derives from the `Resolution` string.
This contradicts the claim; the spec's own §9 design note records the
`hasAudio` behaviour as a defect of the code, so the code, not the claim, is
wrong. -/
theorem C3_code_divergence :
    (∀ (f : GoutubedlFormat) (isVideo : Bool),
      (ytFormatToMedia f isVideo).HasAudio = true ∧
      (ytFormatToMedia f isVideo).HasVideo = isVideo) ∧
    videoOnlyRaw.ACodec = "none" ∧
    (ytFormatToMedia videoOnlyRaw true).HasAudio = true :=
  ⟨fun _ _ => ⟨rfl, rfl⟩, rfl, rfl⟩

/-! ## Claim C4 -/

/-- C4, counterexample (exact Go sort model on three formats): the
single-schema ranker places the audio-only format FIRST, not last, and orders
the two video formats by bitrate only — the smaller-resolution,
higher-bitrate video precedes the larger-resolution one — contradicting
"video before audio, resolution descending". -/
theorem C4_counterexample :
    fmtAudioOnly.HasVideo = false ∧ fmtVideoSmall.HasVideo = true ∧
    fmtVideoLarge.HasVideo = true ∧
    fmtVideoSmall.VideoWidth * fmtVideoSmall.VideoHeight <
      fmtVideoLarge.VideoWidth * fmtVideoLarge.VideoHeight ∧
    SortFormatsGo [fmtVideoSmall, fmtVideoLarge, fmtAudioOnly] =
      [fmtAudioOnly, fmtVideoSmall, fmtVideoLarge] := by
  refine ⟨rfl, rfl, rfl, by decide, by decide⟩

/-- C4, amended: the single-schema ranker (src/internal) sorts by its
comparator `formatLess` — audio-only formats before video-capable ones, video
formats by video bitrate descending, audio-only formats by audio bitrate
descending, with no resolution or size keys — provided every input format has
a capability flag (which `CleanFormats` guarantees); the split-schema ranker
(src/backend) sorts its two separate sequences by resolution/bitrate/size
resp. bitrate/size, descending.  Output is always a permutation of the
input ordered by the respective comparator. -/
theorem C4_amended :
    (∀ l : List Format, (∀ f ∈ l, f.HasVideo = true ∨ f.HasAudio = true) →
      (SortFormats l).Perm l ∧
      (SortFormats l).Pairwise (fun x y => formatLess y x = false)) ∧
    (∀ lv : List VideoFormat, (SortVideoFormats lv).Perm lv ∧
      (SortVideoFormats lv).Pairwise (fun x y => videoFormatLess y x = false)) ∧
    (∀ la : List AudioFormat, (SortAudioFormats la).Perm la ∧
      (SortAudioFormats la).Pairwise (fun x y => audioFormatLess y x = false)) := by
  refine ⟨?_, ?_, ?_⟩
  · intro l hP
    exact ⟨insertionSortB_perm formatLess l,
      insertionSortB_pairwise formatLess
        (fun f => f.HasVideo = true ∨ f.HasAudio = true)
        formatLess_trans formatLess_asymm l hP⟩
  · intro lv
    exact ⟨insertionSortB_perm videoFormatLess lv,
      insertionSortB_pairwise videoFormatLess (fun _ => True)
        (fun x y z _ _ _ => videoFormatLess_trans x y z)
        (fun x y _ _ => videoFormatLess_asymm x y) lv (fun _ _ => trivial)⟩
  · intro la
    exact ⟨insertionSortB_perm audioFormatLess la,
      insertionSortB_pairwise audioFormatLess (fun _ => True)
        (fun x y z _ _ _ => audioFormatLess_trans x y z)
        (fun x y _ _ => audioFormatLess_asymm x y) la (fun _ _ => trivial)⟩

/-- C4, witness for the amended theorem at a concrete flagged input. -/
theorem C4_amended_witness :
    (SortFormats [fmtVideoSmall, fmtAudioOnly]).Perm [fmtVideoSmall, fmtAudioOnly] ∧
    (SortFormats [fmtVideoSmall, fmtAudioOnly]).Pairwise
      (fun x y => formatLess y x = false) :=
  C4_amended.1 [fmtVideoSmall, fmtAudioOnly] (by decide)

/-! ## Claim C9 -/

/-- C9, counterexample to stability: the formats at input positions 11 and 12
compare equal under the ranking order (equal audio bitrates, both
audio-only), yet the exact Go `sort.Slice` model emits position 12's format
BEFORE position 11's — `sort.Slice`'s pdqsort is not a stable sort. -/
theorem C9_counterexample :
    c9Input.map (·.SourceIdentifier) =
      ["f0", "f1", "f2", "f3", "f4", "f5", "f6", "f7", "f8", "f9", "f10",
        "f11", "f12"] ∧
    (c9Input.getD 11 default).AudioBitrate = (c9Input.getD 12 default).AudioBitrate ∧
    formatLess (c9Input.getD 11 default) (c9Input.getD 12 default) = false ∧
    formatLess (c9Input.getD 12 default) (c9Input.getD 11 default) = false ∧
    (SortFormatsGo c9Input).map (·.SourceIdentifier) =
      ["f2", "f12", "f11", "f0", "f6", "f8", "f1", "f10", "f4", "f5", "f3",
        "f9", "f7"] := by
  refine ⟨by decide, by decide, by decide, by decide, by decide⟩

/-- C9, amended: the ranker is a deterministic function of its input (a pure
function in this model) whose output is a permutation of the input; but the
sort is NOT stable — see the counterexample for two equal-comparing formats
leaving in reversed order. -/
theorem C9_amended (l : List Format) : (SortFormatsGo l).Perm l :=
  sortSliceGo_perm formatLess l

/-! ## Claim C5 -/

theorem mapLookup_insert (m : List (String × CacheEntry α)) (k : String)
    (e : CacheEntry α) : mapLookup (mapInsert m k e) k = some e := by
  simp [mapLookup, mapInsert, List.find?_cons_of_pos]

theorem mapLookup_erase (m : List (String × CacheEntry α)) (k : String) :
    mapLookup (mapErase m k) k = none := by
  unfold mapLookup mapErase
  rw [List.find?_eq_none.mpr]
  · rfl
  · intro p hp
    have := (List.mem_filter.mp hp).2
    simp only [Bool.not_eq_true'] at this
    simp [this]

/-- C5, counterexample: at age exactly equal to the TTL the entry is still
served — the code expires an entry only when `time.Since > maxAge` is STRICT,
so "age at least TTL reports Absent" fails at the boundary. -/
theorem C5_counterexample :
    (c5After.Get "url" (30 * 60 * 1000000000)).1 = some 42 ∧
    (30 * 60 * 1000000000 : ℤ) - 0 ≥ (cacheSingleton Nat).maxAge := by
  exact ⟨by decide, by decide⟩

/-- C5, amended: an entry is Fresh while its age is AT MOST the TTL (`get`
returns the stored value), and Stale only strictly beyond the TTL (`get` then
deletes the entry and reports Absent); once deleted, no later `get` without an
intervening `set` re-surfaces it; and `get` immediately after `set` (TTL
non-negative) returns the value just stored. -/
theorem C5_amended {α : Type} (c : ResultCache α) (url : String) (v : α)
    (t now now₂ : ℤ) :
    (now - t ≤ c.maxAge → ((c.Set url v t).Get url now).1 = some v) ∧
    (now - t > c.maxAge →
      ((c.Set url v t).Get url now).1 = none ∧
      mapLookup ((c.Set url v t).Get url now).2.cache url = none) ∧
    (0 ≤ c.maxAge → ((c.Set url v t).Get url t).1 = some v) ∧
    (∀ c₂ : ResultCache α, mapLookup c₂.cache url = none →
      (c₂.Get url now₂).1 = none ∧
      mapLookup (c₂.Get url now₂).2.cache url = none) := by
  have hlook : mapLookup (mapInsert c.cache url ⟨v, t⟩) url = some ⟨v, t⟩ :=
    mapLookup_insert c.cache url ⟨v, t⟩
  refine ⟨?_, ?_, ?_, ?_⟩
  · intro hage
    unfold ResultCache.Set ResultCache.Get
    dsimp only
    rw [hlook]
    dsimp only
    rw [if_neg (by omega)]
  · intro hage
    unfold ResultCache.Set ResultCache.Get
    dsimp only
    rw [hlook]
    dsimp only
    rw [if_pos (by omega)]
    exact ⟨rfl, mapLookup_erase _ url⟩
  · intro hpos
    unfold ResultCache.Set ResultCache.Get
    dsimp only
    rw [hlook]
    dsimp only
    rw [if_neg (by omega)]
  · intro c₂ habs
    unfold ResultCache.Get
    dsimp only
    rw [habs]
    exact ⟨rfl, habs⟩

/-- C5, witness for the amended theorem on the 30-minute singleton: a fresh
read one nanosecond before expiry returns the value; a read one nanosecond
past the TTL reports Absent and deletes; a read at the set instant returns
the value; a read of an absent key stays Absent. -/
theorem C5_amended_witness :
    ((((cacheSingleton Nat).Set "u" 7 0).Get "u" 5).1 = some 7) ∧
    ((((cacheSingleton Nat).Set "u" 7 0).Get "u" 1800000000001).1 = none) ∧
    ((((cacheSingleton Nat).Set "u" 7 0).Get "u" 0).1 = some 7) ∧
    (((cacheSingleton Nat).Get "u" 99).1 = none) :=
  ⟨(C5_amended (cacheSingleton Nat) "u" 7 0 5 0).1 (by decide),
   ((C5_amended (cacheSingleton Nat) "u" 7 0 1800000000001 0).2.1 (by decide)).1,
   (C5_amended (cacheSingleton Nat) "u" 7 0 0 0).2.2.1 (by decide),
   ((C5_amended (cacheSingleton Nat) "u" 7 0 0 99).2.2.2 (cacheSingleton Nat)
     (by decide)).1⟩

/-! ## Claim C6 -/

/-- C6: the stable identifier reads only the raw `FormatID` — two raw formats
agreeing on `FormatID` hash identically whatever their other fields — and two
different sample identifiers produce different digests (collision resistance
itself is the SHA-256 assumption and is not a statable proposition). -/
theorem C6_hash_pure :
    (∀ f g : GoutubedlFormat, f.FormatID = g.FormatID →
      ytFormatHash f = ytFormatHash g) ∧
    ytFormatHash c6FormatA ≠ ytFormatHash c6FormatB := by
  constructor
  · intro f g h
    unfold ytFormatHash
    rw [h]
  · decide

/-- C6, witness: two raw formats equal only in `FormatID` (every other field
differs) receive the same stable identifier. -/
theorem C6_hash_pure_witness :
    c6FormatA.FormatID = c6FormatA2.FormatID ∧
    c6FormatA.VBR ≠ c6FormatA2.VBR ∧ c6FormatA.Ext ≠ c6FormatA2.Ext ∧
    c6FormatA.Filesize ≠ c6FormatA2.Filesize ∧
    ytFormatHash c6FormatA = ytFormatHash c6FormatA2 :=
  ⟨rfl, by decide, by decide, by decide, C6_hash_pure.1 c6FormatA c6FormatA2 rfl⟩

/-! ## Claim C7 -/

/-- C7: the Source Classifier returns `Unknown` when the URL fails to parse;
otherwise it returns the YouTube provider if and only if the lowercased
hostname is an exact member of YouTube's fixed hostname list (the pieces of
the semicolon-separated table — exact string equality, not a suffix match),
and any hostname not on the list yields `Unknown`.  The function is total, so
classification never fails with an error.  net/url's `Parse` + `Hostname()`
is the stdlib boundary, supplied as `parseUrl`. -/
theorem C7_classifier (parseUrl : String → Option ParsedUrl) (url : String) :
    (parseUrl url = none → IdentifySource parseUrl url = Source.Unknown) ∧
    (∀ u, parseUrl url = some u →
      (IdentifySource parseUrl url = Source.YouTube ↔
        strToLower u.hostname ∈ youtubeHostnameList) ∧
      (strToLower u.hostname ∉ youtubeHostnameList →
        IdentifySource parseUrl url = Source.Unknown)) := by
  constructor
  · intro h
    unfold IdentifySource
    rw [h]
  · intro u hu
    have hred : IdentifySource parseUrl url =
        (if containsGo youtubeHostnames (strToLower u.hostname) then Source.YouTube
         else Source.Unknown) := by
      unfold IdentifySource
      rw [hu]
    have hcont : containsGo youtubeHostnames (strToLower u.hostname) = true ↔
        strToLower u.hostname ∈ youtubeHostnameList := by
      unfold containsGo youtubeHostnameList
      constructor
      · exact fun h => List.mem_of_elem_eq_true h
      · exact fun h => List.elem_eq_true_of_mem h
    constructor
    · rw [hred]
      constructor
      · intro hres
        by_cases hc : containsGo youtubeHostnames (strToLower u.hostname) = true
        · exact hcont.mp hc
        · rw [if_neg hc] at hres
          exact absurd hres (by simp)
      · intro hmem
        rw [if_pos (hcont.mpr hmem)]
    · intro hnot
      rw [hred, if_neg fun hc => hnot (hcont.mp hc)]

/-- C7, witness: the sample URL's mixed-case hostname lowercases onto the
table and classifies as YouTube; a parse failure classifies as `Unknown`. -/
theorem C7_classifier_witness :
    IdentifySource sampleParse "https://WWW.YouTube.com/watch?v=x" =
      Source.YouTube ∧
    IdentifySource sampleParse "not a url" = Source.Unknown :=
  ⟨((C7_classifier sampleParse "https://WWW.YouTube.com/watch?v=x").2
      ⟨"WWW.YouTube.com"⟩ rfl).1.mpr (by decide),
   (C7_classifier sampleParse "not a url").1 rfl⟩

/-! ## Claim C8 -/

/-- C8: after the subprocess started and both captures were read, the invoker
fails with a tool error whenever the wait reported an error or stderr is
non-empty (regardless of exit code); fails with a parse error when, with a
clean wait and empty stderr, stdout does not decode; and returns the parsed
record exactly when the wait is clean, stderr is empty and stdout decodes. -/
theorem C8_invoker (decodeJson : List Nat → Option MediaInfo) (r : StartedRun)
    (stdoutBytes stderrBytes : List Nat)
    (hout : r.stdoutRead = .ok stdoutBytes) (herr : r.stderrRead = .ok stderrBytes) :
    ((r.waitErr ≠ none ∨ stderrBytes ≠ []) →
      getRawMediaInfo decodeJson r = .error .toolWaitFailed ∨
      getRawMediaInfo decodeJson r = .error .toolStderrOutput) ∧
    (r.waitErr = none → stderrBytes = [] → decodeJson stdoutBytes = none →
      getRawMediaInfo decodeJson r = .error .parseFailed) ∧
    (∀ m, getRawMediaInfo decodeJson r = .ok m ↔
      (r.waitErr = none ∧ stderrBytes = [] ∧ decodeJson stdoutBytes = some m)) := by
  unfold getRawMediaInfo
  rw [hout, herr]
  rcases hw : r.waitErr with _ | e
  · rcases hsb : stderrBytes with _ | ⟨b, bs⟩
    · rcases hdec : decodeJson stdoutBytes with _ | m <;> simp [hdec]
    · simp
  · simp

/-- C8, witness: the sample run (clean wait, empty stderr, decodable stdout)
returns the parsed record; flipping stderr to non-empty yields the tool
error. -/
theorem C8_invoker_witness :
    getRawMediaInfo sampleDecode sampleRunOk = .ok ⟨"T", 10, []⟩ ∧
    getRawMediaInfo sampleDecode ⟨.ok [123], .ok [101], none⟩ =
      .error .toolStderrOutput :=
  ⟨((C8_invoker sampleDecode sampleRunOk [123] [] rfl rfl).2.2 ⟨"T", 10, []⟩).mpr
      ⟨rfl, rfl, by decide⟩,
   rfl⟩

/-! ## Claim C10 -/

/-- C10, counterexample: `zeroBitrateMp4` survives `getFormats` (non-zero
size, sole mp4 entry) but is dropped from the list endpoint's output by
`CleanFormats` (both bitrates ≤ 0) — yet `DownloadMedia` resolves its stable
identifier and opens the stream: a format absent from the list-formats output
CAN be resolved for download, contradicting the claim's final clause. -/
theorem C10_counterexample :
    (∃ f ∈ c10Info.Formats, ytFormatHash f = ytFormatHash zeroBitrateMp4) ∧
    (DownloadMedia c10Info "u" (ytFormatHash zeroBitrateMp4)).isOk = true ∧
    listedFormats c10Info = [] := by
  refine ⟨⟨zeroBitrateMp4, by decide, rfl⟩, by decide, by decide⟩

/-- C10, amended: when the requested identifier hashes some cached raw format
but no output of `getFormats` (the normalize/dedup stage, which is what the
download path rebuilds) carries it, `DownloadMedia` fails with the
"general format not found" error before the stream is opened; conversely a
successful resolution implies the identifier is carried by some `getFormats`
output.  (The list endpoint further applies the `CleanFormats` bitrate
filter, which the download path does not — see the counterexample.) -/
theorem C10_amended (info : GoInfo) (url sourceIdentifier : String) :
    ((∃ f ∈ info.Formats, ytFormatHash f = sourceIdentifier) →
     (∀ F ∈ getFormats info.Formats, F.SourceIdentifier ≠ sourceIdentifier) →
     DownloadMedia info url sourceIdentifier = .error .generalFormatNotFound) ∧
    (∀ res, DownloadMedia info url sourceIdentifier = .ok res →
      ∃ F ∈ getFormats info.Formats, F.SourceIdentifier = sourceIdentifier) := by
  constructor
  · rintro ⟨f, hf, hhash⟩ habs
    unfold DownloadMedia
    split
    · rename_i hraw
      rw [List.find?_eq_none] at hraw
      exact absurd (by simp [hhash]) (hraw f hf)
    · dsimp only
      split
      · rfl
      · rename_i F hfind
        exact absurd (by simpa using List.find?_some hfind)
          (habs F (List.mem_of_find?_eq_some hfind))
  · intro res hres
    unfold DownloadMedia at hres
    split at hres
    · simp at hres
    · dsimp only at hres
      split at hres
      · simp at hres
      · rename_i F hfind
        exact ⟨F, List.mem_of_find?_eq_some hfind, by simpa using List.find?_some hfind⟩

/-- C10, witness for the amended theorem: the webm raw format's identifier
hashes a cached raw format, `getFormats` drops the format, and
`DownloadMedia` answers "general format not found" without opening a
stream. -/
theorem C10_amended_witness :
    DownloadMedia c10WitnessInfo "u" (ytFormatHash webmDropped) =
      .error .generalFormatNotFound :=
  (C10_amended c10WitnessInfo "u" (ytFormatHash webmDropped)).1
    ⟨webmDropped, by decide, rfl⟩ (by decide)

end MediaDownloader
